import Mathlib

set_option maxRecDepth 8192

/-!
Verification of the "vir" virtualized-list engine.

The development shallowly embeds the measurement / transition / scroll core of
the library (src/src/core and src/src/utils) into Lean:

* item ids are opaque strings in the source; they are modeled by a type
  parameter with decidable equality,
* JS `Set<string>` becomes `Finset`,
* JS `Map<string, T>` becomes an association list with JS `Map` semantics
  (`mget` / `mset` / delete-by-filter),
* JS numbers become `ℚ` (heights, offsets) or `ℤ` (versions, timestamps,
  signed indices),
* callback-driven mutation becomes explicit state passing.
-/

namespace Vir

variable {α : Type} [DecidableEq α]

/-- From src/src/utils/index.ts `setsEqual`: sizes equal and every element of
the first set is in the second. -/
def setsEqual (a b : Finset α) : Prop :=
  a.card = b.card ∧ ∀ x ∈ a, x ∈ b

instance (a b : Finset α) : Decidable (setsEqual a b) := by
  unfold setsEqual; infer_instance

/-- From src/src/utils/index.ts `isSubset`: every element of the first set is
in the second. -/
def isSubset (s t : Finset α) : Prop :=
  ∀ x ∈ s, x ∈ t

instance (s t : Finset α) : Decidable (isSubset s t) := by
  unfold isSubset; infer_instance

/-- From src/src/utils/index.ts `setIntersection`: elements of `a` also in
`b`. -/
def setIntersection (a b : Finset α) : Finset α :=
  a.filter (fun x => x ∈ b)

/-- From src/src/utils/index.ts `setDifference`: elements of `a` not in
`b`. -/
def setDifference (a b : Finset α) : Finset α :=
  a.filter (fun x => x ∉ b)

/-- Result type of `TransitionManager.analyzeDataTransition`
(src/src/core/VirtualizationCalculator.ts). -/
inductive TransitionType where
  | append
  | filter
  | replace
  | reorder
  | unknown
deriving DecidableEq

/-- `TransitionManager.analyzeDataTransition`
(src/src/core/VirtualizationCalculator.ts, lines 558-592): classify how the
dataset changed, comparing the old and new id sets. The JS `0.5` threshold is
the rational 1/2. -/
def analyzeDataTransition (oldIds newIds : Finset α) : TransitionType :=
  let oldSize := oldIds.card
  let newSize := newIds.card
  -- No change
  if oldSize = newSize ∧ setsEqual oldIds newIds then
    .replace -- Same items, possibly reordered or updated content
  -- All old items present + new ones = append
  else if newSize > oldSize ∧ isSubset oldIds newIds then
    .append
  -- Subset of old items = filter
  else if newSize < oldSize ∧ isSubset newIds oldIds then
    .filter
  -- Same size but different items = replace
  else if newSize = oldSize then
    .replace
  -- Some overlap but complex change = reorder
  else if ((setIntersection oldIds newIds).card : ℚ) >
      ((min oldSize newSize : ℕ) : ℚ) * (1 / 2) then
    .reorder
  else
    .unknown

/-- JS `Map#get` on an association list: the first binding for the key. -/
def mget {β : Type} : List (α × β) → α → Option β
  | [], _ => none
  | p :: rest, k => if k = p.1 then some p.2 else mget rest k

/-- JS `Map#set` on an association list: replace the value of an existing
binding in place, else append a new binding. -/
def mset {β : Type} : List (α × β) → α → β → List (α × β)
  | [], k, v => [(k, v)]
  | p :: rest, k, v => if p.1 = k then (p.1, v) :: rest else p :: mset rest k v

/-- Pending scroll-recovery action, `ScrollContext` from src/src/types. -/
inductive ScrollContext (α : Type) where
  | top
  | ratio (scrollRatio : ℚ)
  | item (itemId : α)
deriving DecidableEq

namespace Manager

/-- `ItemMeasurement` as used by VirtualizedListManager
(src/src/types, second document): height and derived top offset. -/
structure ItemMeasurement where
  height : ℚ
  top : ℚ
deriving DecidableEq

/-- Maximization mode (src/src/types `MaximizationConfig.mode`). -/
inductive MaxMode where
  | fixed
  | natural
  | percentage
  | custom
deriving DecidableEq

/-- `MaximizationConfig` from src/src/types; optional numeric fields model
`number | undefined`. -/
structure MaximizationConfig where
  mode : MaxMode
  maxHeight : Option ℚ := none
  containerPercentage : Option ℚ := none
  clipOverflow : Bool := true
  neighborSpace : Option ℚ := none
deriving DecidableEq

/-- JS truthiness of an optional number: `undefined` and `0` are falsy. -/
def truthy : Option ℚ → Bool
  | some c => c != 0
  | none => false

/-- JS `x || d` for an optional number `x`: `d` when `x` is `undefined` or
`0`, else `x`. -/
def orDefault (x : Option ℚ) (d : ℚ) : ℚ :=
  match x with
  | some c => if c = 0 then d else c
  | none => d

/-- `VirtualizedListManager.calculateMaximizedHeight`
(src/src/core/VirtualizedListManager.ts, lines 303-338). `??` is
`Option.getD`, `||` is `orDefault`, and the leading `if (customHeight)`
is JS truthiness. -/
def calculateMaximizedHeight (config : MaximizationConfig)
    (containerHeight : ℚ) (customHeight : Option ℚ) : ℚ :=
  -- Custom height takes precedence
  if truthy customHeight then customHeight.getD 0
  else
    match config.mode with
    | .natural =>
        -- Return 0 to indicate natural height should be used
        0
    | .custom => orDefault config.maxHeight (containerHeight * (8 / 10))
    | .percentage =>
        let percentage := orDefault config.containerPercentage (8 / 10)
        let maxHeight0 := containerHeight * percentage
        let neighborSpace := config.neighborSpace.getD 120
        let maxHeight1 :=
          if maxHeight0 > containerHeight - neighborSpace
          then containerHeight - neighborSpace else maxHeight0
        max maxHeight1 200
    | .fixed =>
        -- the source's `case "fixed"` is also the `default` case
        let fixedHeight0 :=
          containerHeight * orDefault config.containerPercentage (8 / 10)
        let space := config.neighborSpace.getD 120
        let fixedHeight1 :=
          if fixedHeight0 > containerHeight - space
          then containerHeight - space else fixedHeight0
        max fixedHeight1 200

/-- `VirtualizedListManager.cleanupRemovedItems`
(src/src/core/VirtualizedListManager.ts, lines 95-107): delete the
measurement entries of ids in the old snapshot but not the new one. -/
def cleanupRemovedItems (m : List (α × ItemMeasurement))
    (oldIds newIds : Finset α) : List (α × ItemMeasurement) :=
  let removedIds := setDifference oldIds newIds
  m.filter (fun p => p.1 ∉ removedIds)

end Manager

namespace TransitionManager

/-- The state read and written by `TransitionManager.handleFilterTransition`:
the manager's measurement map and maximization fields, the scroll ratio and
container data exposed through `getListState` / `getTotalCount`, and the
transition manager's own `pendingScrollContext`. -/
structure TState (α : Type) where
  measurements : List (α × Manager.ItemMeasurement)
  maximizedItemId : Option α
  maximizedHeight : ℚ
  scrollTopRatio : ℚ
  totalCount : ℕ
  pendingScrollContext : Option (ScrollContext α)

/-- `VirtualizedListManager.clearMaximization`
(src/src/core/VirtualizedListManager.ts, lines 131-134). -/
def clearMaximization (s : TState α) : TState α :=
  { s with maximizedItemId := none, maximizedHeight := 0 }

/-- `TransitionManager.handleFilterTransition`
(src/src/core/VirtualizationCalculator.ts, lines 603-639): prune removed
ids, then pick the pending scroll-recovery action. -/
def handleFilterTransition (oldIds newIds : Finset α) (s : TState α) :
    TState α :=
  -- Items were filtered out
  let s := { s with
    measurements := Manager.cleanupRemovedItems s.measurements oldIds newIds }
  match s.maximizedItemId with
  | some maximizedItemId =>
    if maximizedItemId ∉ newIds then
      -- Maximized item was filtered out - clearing maximization
      { (clearMaximization s) with pendingScrollContext := some .top }
    else
      -- Keep maximized item visible
      { s with pendingScrollContext := some (.item maximizedItemId) }
  | none =>
    -- No maximized item - try to maintain relative position or go to top
    let newCount := s.totalCount
    if newCount = 0 then
      { s with pendingScrollContext := some .top }
    else if newCount < 20 then
      -- Small filtered set - go to top for better UX
      { s with pendingScrollContext := some .top }
    else
      -- Try to maintain some scroll position, but cap it at maxRatio = 0.5
      let capped := min s.scrollTopRatio (1 / 2)
      { s with pendingScrollContext := some (.ratio capped) }

end TransitionManager

/-- Looking a key up in a filtered association list yields nothing when the
predicate rejects every binding of that key. -/
theorem mget_filter_eq_none {β : Type} (m : List (α × β))
    (p : α × β → Bool) (k : α) (h : ∀ v, p (k, v) = false) :
    mget (m.filter p) k = none := by
  induction m with
  | nil => rfl
  | cons q rest ih =>
    by_cases hq : p q
    · rw [List.filter_cons_of_pos hq]
      unfold mget
      by_cases hk : k = q.1
      · exfalso
        have := h q.2
        rw [hk] at this
        rw [show ((q.1, q.2) : α × β) = q from rfl] at this
        rw [this] at hq
        exact Bool.noConfusion hq
      · rw [if_neg hk]
        exact ih
    · rw [List.filter_cons_of_neg (by simpa using hq)]
      exact ih

omit [DecidableEq α] in
theorem isSubset_iff (s t : Finset α) : isSubset s t ↔ s ⊆ t := by
  unfold isSubset
  exact ⟨fun h x hx => h x hx, fun h x hx => h hx⟩

omit [DecidableEq α] in
theorem setsEqual_iff (a b : Finset α) : setsEqual a b ↔ a = b := by
  constructor
  · rintro ⟨hcard, hsub⟩
    exact Finset.eq_of_subset_of_card_le (fun x hx => hsub x hx) (le_of_eq hcard.symm)
  · rintro rfl
    exact ⟨rfl, fun x hx => hx⟩

end Vir

/-- C1: the transition classifier returns append when the old set is a strict
subset of the new, filter when the new set is a strict subset of the old,
replace when the sets are equal or merely of equal size, reorder when the
sizes differ, neither set contains the other and the intersection exceeds
half the smaller size, and unknown otherwise; in particular old = 1,2,3 and
new = 1,2,3,4,5 give append, old = 1,2,3,4,5 and new = 2,4 give filter, and
old = new = 1,2,3 gives replace. -/
theorem vir_C1_transition_classification :
    (∀ (oldIds newIds : Finset ℕ),
      (Vir.isSubset oldIds newIds → oldIds.card < newIds.card →
        Vir.analyzeDataTransition oldIds newIds = .append) ∧
      (Vir.isSubset newIds oldIds → newIds.card < oldIds.card →
        Vir.analyzeDataTransition oldIds newIds = .filter) ∧
      (oldIds = newIds ∨ oldIds.card = newIds.card →
        Vir.analyzeDataTransition oldIds newIds = .replace) ∧
      (oldIds.card ≠ newIds.card → ¬ Vir.isSubset oldIds newIds →
        ¬ Vir.isSubset newIds oldIds →
        (((Vir.setIntersection oldIds newIds).card : ℚ) >
          ((min oldIds.card newIds.card : ℕ) : ℚ) * (1 / 2) →
          Vir.analyzeDataTransition oldIds newIds = .reorder) ∧
        (((Vir.setIntersection oldIds newIds).card : ℚ) ≤
          ((min oldIds.card newIds.card : ℕ) : ℚ) * (1 / 2) →
          Vir.analyzeDataTransition oldIds newIds = .unknown)) ) ∧
    Vir.analyzeDataTransition ({1, 2, 3} : Finset ℕ) {1, 2, 3, 4, 5} = .append ∧
    Vir.analyzeDataTransition ({1, 2, 3, 4, 5} : Finset ℕ) {2, 4} = .filter ∧
    Vir.analyzeDataTransition ({1, 2, 3} : Finset ℕ) {1, 2, 3} = .replace := by
  refine ⟨fun oldIds newIds => ?_, by decide, by decide, by decide⟩
  have hrepl : oldIds = newIds ∨ oldIds.card = newIds.card →
      Vir.analyzeDataTransition oldIds newIds = .replace := by
    intro h
    have hcard : oldIds.card = newIds.card := by
      rcases h with rfl | h
      · rfl
      · exact h
    unfold Vir.analyzeDataTransition
    by_cases heq : Vir.setsEqual oldIds newIds
    · rw [if_pos ⟨hcard, heq⟩]
    · rw [if_neg (fun hc => heq hc.2),
        if_neg (fun hc => absurd hc.1 (by omega)),
        if_neg (fun hc => absurd hc.1 (by omega)), if_pos hcard.symm]
  refine ⟨?_, ?_, hrepl, ?_⟩
  · intro hsub hlt
    unfold Vir.analyzeDataTransition
    rw [if_neg (fun hc => absurd hc.1 (by omega)), if_pos ⟨hlt, hsub⟩]
  · intro hsub hlt
    unfold Vir.analyzeDataTransition
    rw [if_neg (fun hc => absurd hc.1 (by omega)),
      if_neg (fun hc => absurd hc.1 (by omega)), if_pos ⟨hlt, hsub⟩]
  · intro hne hnsub hnsub'
    have h1 : ¬ (oldIds.card = newIds.card ∧ Vir.setsEqual oldIds newIds) :=
      fun hc => hne hc.1
    have h2 : ¬ (newIds.card > oldIds.card ∧ Vir.isSubset oldIds newIds) :=
      fun hc => hnsub hc.2
    have h3 : ¬ (newIds.card < oldIds.card ∧ Vir.isSubset newIds oldIds) :=
      fun hc => hnsub' hc.2
    have h4 : ¬ (newIds.card = oldIds.card) := fun hc => hne hc.symm
    constructor
    · intro hover
      unfold Vir.analyzeDataTransition
      rw [if_neg h1, if_neg h2, if_neg h3, if_neg h4, if_pos hover]
    · intro hover
      unfold Vir.analyzeDataTransition
      rw [if_neg h1, if_neg h2, if_neg h3, if_neg h4, if_neg (not_lt.mpr hover)]

/-- C1 witness: the classifier cases evaluated at concrete inputs through the
main theorem. -/
theorem vir_C1_witness :
    Vir.analyzeDataTransition ({1, 2} : Finset ℕ) {1, 2, 3} = .append ∧
    Vir.analyzeDataTransition ({1, 2, 3, 4} : Finset ℕ) {1, 2, 3, 5, 6} = .reorder := by
  constructor
  · exact (vir_C1_transition_classification.1 {1, 2} {1, 2, 3}).1
      (by decide) (by decide)
  · refine (((vir_C1_transition_classification.1 {1, 2, 3, 4} {1, 2, 3, 5, 6}).2.2.2
      (by decide) (by decide) (by decide)).1 ?_)
    have h1 : (Vir.setIntersection ({1, 2, 3, 4} : Finset ℕ) {1, 2, 3, 5, 6}).card = 3 := by
      decide
    have h2 : min ({1, 2, 3, 4} : Finset ℕ).card ({1, 2, 3, 5, 6} : Finset ℕ).card = 4 := by
      decide
    rw [h1, h2]
    norm_num

/-- C2: on a filter transition, entries of removed ids are pruned; a removed
maximized item clears maximization with a pending reset-to-top; a surviving
maximized item gets a pending re-anchor to itself; with no maximized item a
new set of fewer than 20 items (in particular an empty one) gets a pending
reset-to-top, and otherwise the pending action preserves the scroll ratio
capped at 1/2. -/
theorem vir_C2_filter_recovery {α : Type} [DecidableEq α]
    (oldIds newIds : Finset α) (s : Vir.TransitionManager.TState α)
    (hfilter : Vir.analyzeDataTransition oldIds newIds = .filter)
    (hcount : s.totalCount = newIds.card) :
    (∀ id ∈ Vir.setDifference oldIds newIds,
      Vir.mget (Vir.TransitionManager.handleFilterTransition oldIds newIds s).measurements
        id = none) ∧
    (∀ m, s.maximizedItemId = some m → m ∉ newIds →
      (Vir.TransitionManager.handleFilterTransition oldIds newIds s).maximizedItemId
          = none ∧
      (Vir.TransitionManager.handleFilterTransition oldIds newIds s).pendingScrollContext
          = some .top) ∧
    (∀ m, s.maximizedItemId = some m → m ∈ newIds →
      (Vir.TransitionManager.handleFilterTransition oldIds newIds s).pendingScrollContext
          = some (.item m)) ∧
    (s.maximizedItemId = none → newIds.card < 20 →
      (Vir.TransitionManager.handleFilterTransition oldIds newIds s).pendingScrollContext
          = some .top) ∧
    (s.maximizedItemId = none → 20 ≤ newIds.card →
      (Vir.TransitionManager.handleFilterTransition oldIds newIds s).pendingScrollContext
          = some (.ratio (min s.scrollTopRatio (1 / 2)))) := by
  have hms : (Vir.TransitionManager.handleFilterTransition oldIds newIds s).measurements
      = Vir.Manager.cleanupRemovedItems s.measurements oldIds newIds := by
    unfold Vir.TransitionManager.handleFilterTransition
    cases hm : s.maximizedItemId with
    | some m =>
      simp only [hm]
      by_cases hmem : m ∉ newIds
      · rw [if_pos hmem]; try rfl
      · rw [if_neg hmem]; try rfl
    | none =>
      simp only [hm]
      by_cases h0 : s.totalCount = 0
      · rw [if_pos h0]; try rfl
      · rw [if_neg h0]
        by_cases h20 : s.totalCount < 20
        · rw [if_pos h20]; try rfl
        · rw [if_neg h20]; try rfl
  refine ⟨?_, ?_, ?_, ?_, ?_⟩
  · intro id hid
    rw [hms]
    unfold Vir.Manager.cleanupRemovedItems
    apply Vir.mget_filter_eq_none
    intro v
    simp only [decide_eq_false_iff_not, Decidable.not_not]
    exact hid
  · intro m hm hnot
    unfold Vir.TransitionManager.handleFilterTransition
    simp only [hm]
    rw [if_pos hnot]
    exact ⟨rfl, rfl⟩
  · intro m hm hmem
    unfold Vir.TransitionManager.handleFilterTransition
    simp only [hm]
    rw [if_neg (fun hc => hc hmem)]
  · intro hm h20
    unfold Vir.TransitionManager.handleFilterTransition
    simp only [hm]
    by_cases h0 : s.totalCount = 0
    · rw [if_pos h0]
    · rw [if_neg h0, if_pos (by omega)]
  · intro hm h20
    unfold Vir.TransitionManager.handleFilterTransition
    simp only [hm]
    rw [if_neg (by omega), if_neg (by omega)]

/-- C2 witness: a concrete filter transition removing the maximized item. -/
theorem vir_C2_witness :
    Vir.analyzeDataTransition ({1, 2, 3} : Finset ℕ) {1, 2} = .filter ∧
    (Vir.TransitionManager.handleFilterTransition ({1, 2, 3} : Finset ℕ) {1, 2}
        ⟨[(3, ⟨50, 100⟩)], some 3, 640, (3 : ℚ) / 4, 2, none⟩).maximizedItemId = none ∧
    (Vir.TransitionManager.handleFilterTransition ({1, 2, 3} : Finset ℕ) {1, 2}
        ⟨[(3, ⟨50, 100⟩)], some 3, 640, (3 : ℚ) / 4, 2, none⟩).pendingScrollContext
      = some .top ∧
    Vir.mget (Vir.TransitionManager.handleFilterTransition ({1, 2, 3} : Finset ℕ) {1, 2}
        ⟨[(3, ⟨50, 100⟩)], some 3, 640, (3 : ℚ) / 4, 2, none⟩).measurements 3 = none := by
  have hfilter : Vir.analyzeDataTransition ({1, 2, 3} : Finset ℕ) {1, 2} = .filter := by
    decide
  have h := vir_C2_filter_recovery ({1, 2, 3} : Finset ℕ) {1, 2}
    ⟨[(3, ⟨50, 100⟩)], some 3, 640, (3 : ℚ) / 4, 2, none⟩ hfilter (by decide)
  refine ⟨hfilter, (h.2.1 3 rfl (by decide)).1, (h.2.1 3 rfl (by decide)).2, ?_⟩
  exact h.1 3 (by decide)

/-- On rationals the source's cap pattern `if x > c then c else x` is the
minimum. -/
theorem cap_eq_min (x c : ℚ) : (if x > c then c else x) = min x c := by
  rcases le_or_lt x c with h | h
  · rw [if_neg (not_lt.mpr h), min_eq_left h]
  · rw [if_pos h, min_eq_right (le_of_lt h)]

/-- C6 counterexample: the claim says an explicitly provided height always
wins, but an explicit height of 0 is falsy in JS, so the fixed-mode formula
runs instead and yields 560, not 0. -/
theorem vir_C6_counterexample :
    Vir.Manager.calculateMaximizedHeight
        ⟨.fixed, none, some (7 / 10), true, some 100⟩ 800 (some 0) = 560 ∧
      ((560 : ℚ) = 0 → False) := by
  constructor
  · norm_num [Vir.Manager.calculateMaximizedHeight, Vir.Manager.truthy,
      Vir.Manager.orDefault]
  · norm_num

/-- C6 (amended): an explicitly provided nonzero height always wins (zero or
absent counts as not provided); with no such height, mode natural yields 0,
mode custom yields maxHeight when set and nonzero and containerHeight x 0.8
otherwise, and modes percentage and fixed yield containerHeight x
containerPercentage (when set and nonzero) capped at containerHeight minus
neighborSpace (default 120) and floored at 200; container height 800, mode
fixed, percentage 0.7 and neighborSpace 100 yield exactly 560. -/
theorem vir_C6_maximized_height_policy
    (config : Vir.Manager.MaximizationConfig) (ch : ℚ) :
    (∀ c : ℚ, c ≠ 0 →
      Vir.Manager.calculateMaximizedHeight config ch (some c) = c) ∧
    (∀ customHeight : Option ℚ, Vir.Manager.truthy customHeight = false →
      (config.mode = .natural →
        Vir.Manager.calculateMaximizedHeight config ch customHeight = 0) ∧
      (config.mode = .custom → ∀ mh, config.maxHeight = some mh → mh ≠ 0 →
        Vir.Manager.calculateMaximizedHeight config ch customHeight = mh) ∧
      (config.mode = .custom →
        config.maxHeight = none ∨ config.maxHeight = some 0 →
        Vir.Manager.calculateMaximizedHeight config ch customHeight
          = ch * (8 / 10)) ∧
      (config.mode = .percentage ∨ config.mode = .fixed →
        ∀ p, config.containerPercentage = some p → p ≠ 0 →
        Vir.Manager.calculateMaximizedHeight config ch customHeight
          = max (min (ch * p) (ch - config.neighborSpace.getD 120)) 200)) ∧
    Vir.Manager.calculateMaximizedHeight
      ⟨.fixed, none, some (7 / 10), true, some 100⟩ 800 none = 560 := by
  refine ⟨?_, ?_, ?_⟩
  · intro c hc
    have ht : Vir.Manager.truthy (some c) = true := by
      simp [Vir.Manager.truthy, hc]
    simp [Vir.Manager.calculateMaximizedHeight, ht]
  · intro customHeight htruthy
    refine ⟨?_, ?_, ?_, ?_⟩
    · intro hm
      simp [Vir.Manager.calculateMaximizedHeight, htruthy, hm]
    · intro hm mh hmx hne
      simp [Vir.Manager.calculateMaximizedHeight, htruthy, hm, hmx,
        Vir.Manager.orDefault, hne]
    · intro hm hmx
      rcases hmx with hmx | hmx
      · simp [Vir.Manager.calculateMaximizedHeight, htruthy, hm, hmx,
          Vir.Manager.orDefault]
      · simp [Vir.Manager.calculateMaximizedHeight, htruthy, hm, hmx,
          Vir.Manager.orDefault]
    · intro hm p hp hpne
      rcases hm with hm | hm
      · simp only [Vir.Manager.calculateMaximizedHeight, htruthy,
          Bool.false_eq_true, if_false, hm, hp, Vir.Manager.orDefault,
          if_neg hpne, cap_eq_min]
      · simp only [Vir.Manager.calculateMaximizedHeight, htruthy,
          Bool.false_eq_true, if_false, hm, hp, Vir.Manager.orDefault,
          if_neg hpne, cap_eq_min]
  · norm_num [Vir.Manager.calculateMaximizedHeight, Vir.Manager.truthy,
      Vir.Manager.orDefault]

/-- C6 witness: the amended policy evaluated at concrete inputs through the
main theorem. -/
theorem vir_C6_witness :
    Vir.Manager.calculateMaximizedHeight
        ⟨.fixed, none, some (7 / 10), true, some 100⟩ 800 (some 300) = 300 ∧
    Vir.Manager.calculateMaximizedHeight
        ⟨.percentage, none, some (7 / 10), true, some 100⟩ 800 none
      = max (min (800 * (7 / 10)) (800 - 100)) 200 := by
  constructor
  · exact (vir_C6_maximized_height_policy
      ⟨.fixed, none, some (7 / 10), true, some 100⟩ 800).1 300 (by norm_num)
  · exact (((vir_C6_maximized_height_policy
      ⟨.percentage, none, some (7 / 10), true, some 100⟩ 800).2.1 none
      rfl).2.2.2 (Or.inl rfl) (7 / 10) rfl (by norm_num))

namespace Vir

variable {α : Type} [DecidableEq α]

theorem mget_mset {β : Type} (m : List (α × β)) (k k' : α) (v : β) :
    mget (mset m k v) k' = if k' = k then some v else mget m k' := by
  induction m with
  | nil =>
    simp only [mset, mget]
  | cons q rest ih =>
    simp only [mset]
    by_cases hq : q.1 = k
    · rw [if_pos hq]
      simp only [mget]
      by_cases h : k' = k
      · rw [if_pos (show k' = q.1 by rw [hq]; exact h), if_pos h]
      · rw [if_neg (fun hc => h (hc.trans hq)), if_neg h,
          if_neg (fun hc => h (hc.trans hq))]
    · rw [if_neg hq]
      simp only [mget]
      by_cases h : k' = q.1
      · have hk : ¬ k' = k := fun hc => hq (h.symm.trans hc)
        rw [if_pos h, if_neg hk, if_pos h]
      · rw [if_neg h, ih]
        by_cases hk : k' = k
        · rw [if_pos hk, if_pos hk]
        · rw [if_neg hk, if_neg hk, if_neg h]

theorem mget_eq_none_of_not_mem {β : Type} (m : List (α × β)) (k : α)
    (h : k ∉ m.map Prod.fst) : mget m k = none := by
  induction m with
  | nil => rfl
  | cons q rest ih =>
    simp only [List.map_cons, List.mem_cons, not_or] at h
    simp only [mget]
    rw [if_neg h.1]
    exact ih h.2

theorem mem_keys_mset {β : Type} (m : List (α × β)) (k : α) (v : β) (x : α)
    (hx : x ∈ (mset m k v).map Prod.fst) :
    x ∈ m.map Prod.fst ∨ x = k := by
  induction m with
  | nil =>
    simp only [mset, List.map_cons, List.map_nil, List.mem_singleton] at hx
    exact Or.inr hx
  | cons q rest ih =>
    by_cases hq : q.1 = k
    · rw [show mset (q :: rest) k v = (q.1, v) :: rest from by
        simp [mset, hq]] at hx
      simp only [List.map_cons, List.mem_cons] at hx
      rcases hx with hx | hx
      · exact Or.inr (hx.trans hq)
      · exact Or.inl (by simp only [List.map_cons, List.mem_cons]; exact Or.inr hx)
    · rw [show mset (q :: rest) k v = q :: mset rest k v from by
        simp [mset, hq]] at hx
      simp only [List.map_cons, List.mem_cons] at hx
      rcases hx with hx | hx
      · exact Or.inl (by simp only [List.map_cons, List.mem_cons]; exact Or.inl hx)
      · rcases ih hx with h | h
        · exact Or.inl (by simp only [List.map_cons, List.mem_cons]; exact Or.inr h)
        · exact Or.inr h

theorem keysNodup_mset {β : Type} (m : List (α × β)) (k : α) (v : β)
    (h : (m.map Prod.fst).Nodup) : ((mset m k v).map Prod.fst).Nodup := by
  induction m with
  | nil =>
    unfold mset
    simp
  | cons q rest ih =>
    unfold mset
    by_cases hq : q.1 = k
    · rw [if_pos hq]
      simpa using h
    · rw [if_neg hq]
      simp only [List.map_cons, List.nodup_cons] at h ⊢
      refine ⟨fun hc => ?_, ih h.2⟩
      rcases mem_keys_mset rest k v q.1 hc with hm | hm
      · exact h.1 hm
      · exact hq hm

theorem mget_filter_of_pos {β : Type} (m : List (α × β)) (p : α × β → Bool)
    (k : α) (e : β) (h : mget m k = some e) (hp : p (k, e) = true) :
    mget (m.filter p) k = some e := by
  induction m with
  | nil => exact absurd h (by simp [mget])
  | cons q rest ih =>
    unfold mget at h
    by_cases hk : k = q.1
    · rw [if_pos hk] at h
      have hq : p q = true := by
        have : ((k, e) : α × β) = q := by
          rw [hk]
          exact Prod.ext rfl (by simpa using h.symm)
        rw [← this]
        exact hp
      rw [List.filter_cons_of_pos hq]
      unfold mget
      rw [if_pos hk]
      exact h
    · rw [if_neg hk] at h
      by_cases hq : p q = true
      · rw [List.filter_cons_of_pos hq]
        unfold mget
        rw [if_neg hk]
        exact ih h
      · rw [List.filter_cons_of_neg (by simpa using hq)]
        exact ih h

theorem mget_filter_of_neg {β : Type} (m : List (α × β)) (p : α × β → Bool)
    (k : α) (e : β) (hnd : (m.map Prod.fst).Nodup)
    (h : mget m k = some e) (hp : p (k, e) = false) :
    mget (m.filter p) k = none := by
  induction m with
  | nil => exact absurd h (by simp [mget])
  | cons q rest ih =>
    simp only [List.map_cons, List.nodup_cons] at hnd
    unfold mget at h
    by_cases hk : k = q.1
    · rw [if_pos hk] at h
      have hq : p q = false := by
        have : ((k, e) : α × β) = q := by
          rw [hk]
          exact Prod.ext rfl (by simpa using h.symm)
        rw [← this]
        exact hp
      rw [List.filter_cons_of_neg (by simp [hq])]
      apply mget_eq_none_of_not_mem
      intro hc
      apply hnd.1
      rw [← hk]
      exact ((List.filter_sublist rest).map Prod.fst).subset hc
    · rw [if_neg hk] at h
      by_cases hq : p q = true
      · rw [List.filter_cons_of_pos hq]
        unfold mget
        rw [if_neg hk]
        exact ih hnd.2 h
      · rw [List.filter_cons_of_neg (by simpa using hq)]
        exact ih hnd.2 h

end Vir

namespace Vir

variable {α : Type} [DecidableEq α]

namespace Meas

/-- `ItemMeasurement` from src/src/types (first document): height, derived
top offset, validating generation version and last-used timestamp, as stored
by the `Measurements` class (src/src/core/Measurements.ts). -/
structure ItemMeasurement where
  height : ℚ
  top : ℚ
  version : ℤ
  lastUsed : ℤ
deriving DecidableEq

/-- Construction-time configuration of the `Measurements` class: the default
item height and the inter-item gap. -/
structure Config where
  defaultItemHeight : ℚ
  gap : ℚ
deriving DecidableEq

/-- The per-id walk of `Measurements.buildMeasurements`
(src/src/core/Measurements.ts, lines 66-87): reuse an existing entry's
height, create defaulted entries for unmeasured ids, stamp every visited
entry with the current version and a fresh lastUsed, and accumulate the
running top by height plus gap. `now` is the value of `Date.now()` during
the walk. -/
def buildLoop (cfg : Config) (currentVersion now : ℤ) :
    List α → List (α × ItemMeasurement) → ℚ → List (α × ItemMeasurement)
  | [], m, _ => m
  | id :: rest, m, currentTop =>
    match mget m id with
    | some measurement =>
        buildLoop cfg currentVersion now rest
          (mset m id { measurement with
            top := currentTop, lastUsed := now, version := currentVersion })
          (currentTop + measurement.height + cfg.gap)
    | none =>
        buildLoop cfg currentVersion now rest
          (mset m id ⟨cfg.defaultItemHeight, currentTop, currentVersion, now⟩)
          (currentTop + cfg.defaultItemHeight + cfg.gap)

/-- `Measurements.cleanupStaleMeasurements` (src/src/core/Measurements.ts,
lines 92-102): drop entries whose version lags the current one by at least
two generations or whose lastUsed is older than the 60000 ms window. -/
def cleanupStaleMeasurements (currentVersion now : ℤ)
    (m : List (α × ItemMeasurement)) : List (α × ItemMeasurement) :=
  let cutoff := now - 60000
  m.filter (fun p =>
    ¬(p.2.version < currentVersion - 1 ∨ p.2.lastUsed < cutoff))

/-- `Measurements.buildMeasurements` (src/src/core/Measurements.ts, lines
66-90): the rebuild walk from top 0, followed by stale-entry cleanup. -/
def buildMeasurements (cfg : Config) (currentVersion now : ℤ)
    (orderedIds : List α) (m : List (α × ItemMeasurement)) :
    List (α × ItemMeasurement) :=
  cleanupStaleMeasurements currentVersion now
    (buildLoop cfg currentVersion now orderedIds m 0)

/-- The height `buildLoop` uses for an id: the stored height when the id is
measured, else the default height. -/
def effHeight (cfg : Config) (m : List (α × ItemMeasurement)) (id : α) : ℚ :=
  match mget m id with
  | some measurement => measurement.height
  | none => cfg.defaultItemHeight

theorem mget_buildLoop_not_mem (cfg : Config) (v now : ℤ) (ids : List α)
    (m : List (α × ItemMeasurement)) (t : ℚ) (k : α) :
    k ∉ ids → mget (buildLoop cfg v now ids m t) k = mget m k := by
  induction ids generalizing m t with
  | nil => intro _; rfl
  | cons a rest ih =>
    intro hk
    simp only [List.mem_cons, not_or] at hk
    simp only [buildLoop]
    cases hm : mget m a with
    | some e =>
      rw [ih _ _ hk.2, mget_mset, if_neg hk.1]
    | none =>
      rw [ih _ _ hk.2, mget_mset, if_neg hk.1]

theorem keysNodup_buildLoop (cfg : Config) (v now : ℤ) (ids : List α) :
    ∀ (m : List (α × ItemMeasurement)) (t : ℚ),
    (m.map Prod.fst).Nodup →
    ((buildLoop cfg v now ids m t).map Prod.fst).Nodup := by
  induction ids with
  | nil => intro m t h; exact h
  | cons a rest ih =>
    intro m t h
    simp only [buildLoop]
    cases hm : mget m a with
    | some e => exact ih _ _ (keysNodup_mset m a _ h)
    | none => exact ih _ _ (keysNodup_mset m a _ h)

theorem mget_buildLoop_get (cfg : Config) (v now : ℤ) (ids : List α) :
    ids.Nodup → ∀ (m : List (α × ItemMeasurement)) (t0 : ℚ) (i : ℕ)
    (hi : i < ids.length),
    mget (buildLoop cfg v now ids m t0) (ids.get ⟨i, hi⟩)
      = some ⟨effHeight cfg m (ids.get ⟨i, hi⟩),
          t0 + ((ids.take i).map (fun id => effHeight cfg m id + cfg.gap)).sum,
          v, now⟩ := by
  induction ids with
  | nil =>
    intro _ m t0 i hi
    exact absurd hi (by simp)
  | cons a rest ih =>
    intro hnd m t0 i hi
    obtain ⟨hna, hndr⟩ := List.nodup_cons.mp hnd
    cases i with
    | zero =>
      simp only [buildLoop]
      cases hm : mget m a with
      | some e =>
        rw [show ((a :: rest).get ⟨0, hi⟩) = a from rfl,
          mget_buildLoop_not_mem cfg v now rest _ _ a hna, mget_mset,
          if_pos rfl]
        simp [effHeight, hm]
      | none =>
        rw [show ((a :: rest).get ⟨0, hi⟩) = a from rfl,
          mget_buildLoop_not_mem cfg v now rest _ _ a hna, mget_mset,
          if_pos rfl]
        simp [effHeight, hm]
    | succ n =>
      have hi' : n < rest.length := by simpa using hi
      have hgetmem : rest.get ⟨n, hi'⟩ ∈ rest := List.get_mem rest n hi'
      simp only [buildLoop]
      cases hm : mget m a with
      | some e =>
        rw [show ((a :: rest).get ⟨n + 1, hi⟩) = rest.get ⟨n, hi'⟩ from rfl,
          ih hndr _ _ n hi']
        have heff : ∀ x ∈ rest,
            effHeight cfg (mset m a { e with
              top := t0, lastUsed := now, version := v }) x
              = effHeight cfg m x := by
          intro x hx
          have hxa : ¬ x = a := fun hc => hna (hc ▸ hx)
          simp [effHeight, mget_mset, hxa]
        simp only [Option.some.injEq, ItemMeasurement.mk.injEq]
        refine ⟨heff _ hgetmem, ?_, trivial, trivial⟩
        rw [List.map_congr_left
          (fun x hx => by rw [heff x (List.take_subset n rest hx)] :
            ∀ x ∈ rest.take n,
              effHeight cfg (mset m a { e with
                top := t0, lastUsed := now, version := v }) x + cfg.gap
              = effHeight cfg m x + cfg.gap),
          List.take_succ_cons, List.map_cons, List.sum_cons,
          show effHeight cfg m a = e.height from by simp [effHeight, hm]]
        ring
      | none =>
        rw [show ((a :: rest).get ⟨n + 1, hi⟩) = rest.get ⟨n, hi'⟩ from rfl,
          ih hndr _ _ n hi']
        have heff : ∀ x ∈ rest,
            effHeight cfg (mset m a ⟨cfg.defaultItemHeight, t0, v, now⟩) x
              = effHeight cfg m x := by
          intro x hx
          have hxa : ¬ x = a := fun hc => hna (hc ▸ hx)
          simp [effHeight, mget_mset, hxa]
        simp only [Option.some.injEq, ItemMeasurement.mk.injEq]
        refine ⟨heff _ hgetmem, ?_, trivial, trivial⟩
        rw [List.map_congr_left
          (fun x hx => by rw [heff x (List.take_subset n rest hx)] :
            ∀ x ∈ rest.take n,
              effHeight cfg (mset m a ⟨cfg.defaultItemHeight, t0, v, now⟩) x
                + cfg.gap
              = effHeight cfg m x + cfg.gap),
          List.take_succ_cons, List.map_cons, List.sum_cons,
          show effHeight cfg m a = cfg.defaultItemHeight from by
            simp [effHeight, hm]]
        ring

theorem mget_buildMeasurements_get (cfg : Config) (v now : ℤ)
    (ids : List α) (hnd : ids.Nodup) (m : List (α × ItemMeasurement))
    (i : ℕ) (hi : i < ids.length) :
    mget (buildMeasurements cfg v now ids m) (ids.get ⟨i, hi⟩)
      = some ⟨effHeight cfg m (ids.get ⟨i, hi⟩),
          ((ids.take i).map (fun id => effHeight cfg m id + cfg.gap)).sum,
          v, now⟩ := by
  unfold buildMeasurements cleanupStaleMeasurements
  apply mget_filter_of_pos
  · rw [mget_buildLoop_get cfg v now ids hnd m 0 i hi]
    simp
  · simp only [decide_eq_true_eq]
    push_neg
    constructor <;> omega

end Meas

end Vir

/-- C3: after every rebuild of the position index over the current ordered
id set, any two adjacent ids a (earlier) and b (later) satisfy top b = top a
+ height a + gap, and the first id's top is 0. -/
theorem vir_C3_adjacent_positions {α : Type} [DecidableEq α]
    (cfg : Vir.Meas.Config) (v now : ℤ) (ids : List α) (hnd : ids.Nodup)
    (m : List (α × Vir.Meas.ItemMeasurement)) :
    (∀ (i : ℕ) (hi : i + 1 < ids.length),
      ∃ ea eb,
        Vir.mget (Vir.Meas.buildMeasurements cfg v now ids m)
            (ids.get ⟨i, Nat.lt_of_succ_lt hi⟩) = some ea ∧
        Vir.mget (Vir.Meas.buildMeasurements cfg v now ids m)
            (ids.get ⟨i + 1, hi⟩) = some eb ∧
        eb.top = ea.top + ea.height + cfg.gap) ∧
    (∀ h0 : 0 < ids.length,
      ∃ e, Vir.mget (Vir.Meas.buildMeasurements cfg v now ids m)
          (ids.get ⟨0, h0⟩) = some e ∧ e.top = 0) := by
  constructor
  · intro i hi
    have h1 := Vir.Meas.mget_buildMeasurements_get cfg v now ids hnd m i
      (Nat.lt_of_succ_lt hi)
    have h2 := Vir.Meas.mget_buildMeasurements_get cfg v now ids hnd m (i + 1) hi
    refine ⟨_, _, h1, h2, ?_⟩
    have htake : ids.take (i + 1)
        = ids.take i ++ [ids.get ⟨i, Nat.lt_of_succ_lt hi⟩] := by
      rw [List.take_succ, List.getElem?_eq_getElem (Nat.lt_of_succ_lt hi)]
      rfl
    show ((ids.take (i + 1)).map
        (fun id => Vir.Meas.effHeight cfg m id + cfg.gap)).sum
      = ((ids.take i).map
          (fun id => Vir.Meas.effHeight cfg m id + cfg.gap)).sum
        + Vir.Meas.effHeight cfg m (ids.get ⟨i, Nat.lt_of_succ_lt hi⟩)
        + cfg.gap
    rw [htake, List.map_append, List.sum_append, List.map_cons, List.map_nil,
      List.sum_cons, List.sum_nil]
    ring
  · intro h0
    refine ⟨_, Vir.Meas.mget_buildMeasurements_get cfg v now ids hnd m 0 h0, ?_⟩
    show ((ids.take 0).map (fun id => Vir.Meas.effHeight cfg m id + cfg.gap)).sum = 0
    rfl

/-- C3 witness: a two-item rebuild evaluated through the main theorem; the
second item sits at the first item's top plus its height plus the gap, and
the first item's top is 0. -/
theorem vir_C3_witness :
    (∃ ea eb,
      Vir.mget (Vir.Meas.buildMeasurements ⟨100, 10⟩ 5 1000000 [7, 8]
          [(7, ⟨30, 0, 5, 999999⟩)]) 7 = some ea ∧
      Vir.mget (Vir.Meas.buildMeasurements ⟨100, 10⟩ 5 1000000 [7, 8]
          [(7, ⟨30, 0, 5, 999999⟩)]) 8 = some eb ∧
      eb.top = ea.top + ea.height + (10 : ℚ)) ∧
    (∃ e, Vir.mget (Vir.Meas.buildMeasurements ⟨100, 10⟩ 5 1000000 [7, 8]
          [(7, ⟨30, 0, 5, 999999⟩)]) 7 = some e ∧ e.top = 0) := by
  have h := vir_C3_adjacent_positions (α := ℕ) ⟨100, 10⟩ 5 1000000 [7, 8]
    (by decide) [(7, ⟨30, 0, 5, 999999⟩)]
  exact ⟨h.1 0 (by decide), h.2 (by decide)⟩

/-- C9: after each rebuild, every post-walk entry whose generation lags the
current one by two or more, or whose lastUsed is older than the 60-second
window, is removed, while every entry for an id visited by the rebuild is
re-stamped with the current generation and a fresh lastUsed and retained. -/
theorem vir_C9_stale_gc {α : Type} [DecidableEq α] (cfg : Vir.Meas.Config)
    (v now : ℤ) (ids : List α) (m : List (α × Vir.Meas.ItemMeasurement))
    (hm : (m.map Prod.fst).Nodup) (hnd : ids.Nodup) :
    (∀ (k : α) (e : Vir.Meas.ItemMeasurement),
      Vir.mget (Vir.Meas.buildLoop cfg v now ids m 0) k = some e →
      e.version < v - 1 ∨ e.lastUsed < now - 60000 →
      Vir.mget (Vir.Meas.buildMeasurements cfg v now ids m) k = none) ∧
    (∀ (i : ℕ) (hi : i < ids.length),
      ∃ e, Vir.mget (Vir.Meas.buildMeasurements cfg v now ids m)
          (ids.get ⟨i, hi⟩) = some e ∧ e.version = v ∧ e.lastUsed = now) := by
  constructor
  · intro k e hk hstale
    unfold Vir.Meas.buildMeasurements Vir.Meas.cleanupStaleMeasurements
    apply Vir.mget_filter_of_neg _ _ _ _
      (Vir.Meas.keysNodup_buildLoop cfg v now ids m 0 hm) hk
    simp only [decide_eq_false_iff_not, Decidable.not_not]
    exact hstale
  · intro i hi
    exact ⟨_, Vir.Meas.mget_buildMeasurements_get cfg v now ids hnd m i hi,
      rfl, rfl⟩

/-- C9 witness: a stale off-list entry is purged and the visited id is
re-stamped, evaluated through the main theorem. -/
theorem vir_C9_witness :
    Vir.mget (Vir.Meas.buildMeasurements ⟨100, 10⟩ 5 1000000 [7]
        [(9, ⟨40, 0, 1, 999999⟩)]) 9 = none ∧
    (∃ e, Vir.mget (Vir.Meas.buildMeasurements ⟨100, 10⟩ 5 1000000 [7]
        [(9, ⟨40, 0, 1, 999999⟩)]) 7 = some e ∧
      e.version = 5 ∧ e.lastUsed = 1000000) := by
  have h := vir_C9_stale_gc (α := ℕ) ⟨100, 10⟩ 5 1000000 [7]
    [(9, ⟨40, 0, 1, 999999⟩)] (by decide) (by decide)
  refine ⟨h.1 9 ⟨40, 0, 1, 999999⟩ (by decide) (by decide), h.2 0 (by decide)⟩

namespace Vir

variable {α : Type} [DecidableEq α]

namespace Meas

/-- The loop body of `Measurements.getTotalHeight`
(src/src/core/Measurements.ts, lines 116-122): accumulate the stored height
and the measured-item count for ids whose entry belongs to the current
generation. -/
def totalStep (currentVersion : ℤ) (m : List (α × ItemMeasurement)) :
    ℚ × ℕ → α → ℚ × ℕ := fun acc id =>
  match mget m id with
  | some measurement =>
      if measurement.version = currentVersion then
        (acc.1 + measurement.height, acc.2 + 1)
      else acc
  | none => acc

/-- `Measurements.getTotalHeight` (src/src/core/Measurements.ts, lines
104-129): with no entries at all, count x default plus gaps; otherwise walk
the ordered ids summing stored heights of current-generation entries, add
the default height for every other id, plus gaps. `Math.max(0, count - 1)`
is truncated subtraction. -/
def getTotalHeight (cfg : Config) (currentVersion : ℤ) (orderedIds : List α)
    (m : List (α × ItemMeasurement)) : ℚ :=
  let totalCount := orderedIds.length
  if m.length = 0 then
    (totalCount : ℚ) * cfg.defaultItemHeight
      + ((totalCount - 1 : ℕ) : ℚ) * cfg.gap
  else
    let acc := orderedIds.foldl (totalStep currentVersion m) ((0 : ℚ), (0 : ℕ))
    acc.1 + ((totalCount : ℚ) - (acc.2 : ℚ)) * cfg.defaultItemHeight
      + ((totalCount - 1 : ℕ) : ℚ) * cfg.gap

/-- Whether an id has a measurement entry of the current generation. -/
def isCurrentMeasured (currentVersion : ℤ) (m : List (α × ItemMeasurement))
    (id : α) : Bool :=
  match mget m id with
  | some measurement => measurement.version = currentVersion
  | none => false

/-- The stored height of an id (0 when unmeasured; only used under
`isCurrentMeasured`). -/
def storedHeight (m : List (α × ItemMeasurement)) (id : α) : ℚ :=
  match mget m id with
  | some measurement => measurement.height
  | none => 0

theorem totalStep_foldl (currentVersion : ℤ)
    (m : List (α × ItemMeasurement)) :
    ∀ (ids : List α) (a : ℚ) (n : ℕ),
    ids.foldl (totalStep currentVersion m) (a, n)
      = (a + ((ids.filter (isCurrentMeasured currentVersion m)).map
            (storedHeight m)).sum,
         n + (ids.filter (isCurrentMeasured currentVersion m)).length) := by
  intro ids
  induction ids with
  | nil => intro a n; simp
  | cons id rest ih =>
    intro a n
    rw [List.foldl_cons]
    cases hm : mget m id with
    | some e =>
      by_cases hv : e.version = currentVersion
      · rw [show totalStep currentVersion m (a, n) id = (a + e.height, n + 1)
            from by simp [totalStep, hm, hv], ih,
          List.filter_cons_of_pos (by simp [isCurrentMeasured, hm, hv])]
        simp only [List.map_cons, List.sum_cons, List.length_cons]
        refine Prod.ext ?_ ?_
        · show a + e.height + _ = a + (storedHeight m id + _)
          rw [show storedHeight m id = e.height from by simp [storedHeight, hm]]
          ring
        · show n + 1 + _ = n + (_ + 1)
          omega
      · rw [show totalStep currentVersion m (a, n) id = (a, n)
            from by simp [totalStep, hm, hv], ih,
          List.filter_cons_of_neg (by simp [isCurrentMeasured, hm, hv])]
    | none =>
      rw [show totalStep currentVersion m (a, n) id = (a, n)
          from by simp [totalStep, hm], ih,
        List.filter_cons_of_neg (by simp [isCurrentMeasured, hm])]

theorem sum_heights_split (cfg : Config) (currentVersion : ℤ)
    (m : List (α × ItemMeasurement)) :
    ∀ ids : List α,
    (ids.map (fun id =>
        match mget m id with
        | some e =>
            if e.version = currentVersion then e.height
            else cfg.defaultItemHeight
        | none => cfg.defaultItemHeight)).sum
      = ((ids.filter (isCurrentMeasured currentVersion m)).map
          (storedHeight m)).sum
        + ((ids.length : ℚ)
            - ((ids.filter (isCurrentMeasured currentVersion m)).length : ℚ))
          * cfg.defaultItemHeight := by
  intro ids
  induction ids with
  | nil => simp
  | cons id rest ih =>
    simp only [List.map_cons, List.sum_cons, List.length_cons]
    cases hm : mget m id with
    | some e =>
      by_cases hv : e.version = currentVersion
      · rw [show (match (some e : Option ItemMeasurement) with
            | some e =>
                if e.version = currentVersion then e.height
                else cfg.defaultItemHeight
            | none => cfg.defaultItemHeight) = e.height
            from by simp [hv],
          List.filter_cons_of_pos (by simp [isCurrentMeasured, hm, hv]),
          ih]
        simp only [List.map_cons, List.sum_cons, List.length_cons]
        rw [show storedHeight m id = e.height from by simp [storedHeight, hm]]
        push_cast
        ring
      · rw [show (match (some e : Option ItemMeasurement) with
            | some e =>
                if e.version = currentVersion then e.height
                else cfg.defaultItemHeight
            | none => cfg.defaultItemHeight) = cfg.defaultItemHeight
            from by simp [hv],
          List.filter_cons_of_neg (by simp [isCurrentMeasured, hm, hv]), ih]
        push_cast
        ring
    | none =>
      rw [show (match (none : Option ItemMeasurement) with
          | some e =>
              if e.version = currentVersion then e.height
              else cfg.defaultItemHeight
          | none => cfg.defaultItemHeight) = cfg.defaultItemHeight
          from rfl,
        List.filter_cons_of_neg (by simp [isCurrentMeasured, hm]), ih]
      push_cast
      ring

theorem sum_map_const_rat (c : ℚ) :
    ∀ l : List α, (l.map (fun _ => c)).sum = (l.length : ℚ) * c := by
  intro l
  induction l with
  | nil => simp
  | cons x rest ih =>
    simp only [List.map_cons, List.sum_cons, List.length_cons, ih]
    push_cast
    ring

end Meas

end Vir

/-- C4: totalHeight is count x default plus (count - 1) gaps when no entries
exist, and otherwise the sum over the ordered set of each id's
current-generation stored height (default for unmeasured or off-generation
ids) plus (count - 1) gaps. -/
theorem vir_C4_total_height {α : Type} [DecidableEq α]
    (cfg : Vir.Meas.Config) (v : ℤ) (ids : List α)
    (m : List (α × Vir.Meas.ItemMeasurement)) :
    (Vir.Meas.getTotalHeight cfg v ids m
      = (ids.map (fun id =>
          match Vir.mget m id with
          | some e =>
              if e.version = v then e.height else cfg.defaultItemHeight
          | none => cfg.defaultItemHeight)).sum
        + ((ids.length - 1 : ℕ) : ℚ) * cfg.gap) ∧
    (m = [] →
      Vir.Meas.getTotalHeight cfg v ids m
        = (ids.length : ℚ) * cfg.defaultItemHeight
          + ((ids.length - 1 : ℕ) : ℚ) * cfg.gap) := by
  constructor
  · by_cases hm : m.length = 0
    · have hm' : m = [] := List.length_eq_zero.mp hm
      subst hm'
      unfold Vir.Meas.getTotalHeight
      rw [if_pos (show ([] : List (α × Vir.Meas.ItemMeasurement)).length = 0
        from rfl)]
      have hmap : ids.map (fun id =>
          match Vir.mget ([] : List (α × Vir.Meas.ItemMeasurement)) id with
          | some e =>
              if e.version = v then e.height else cfg.defaultItemHeight
          | none => cfg.defaultItemHeight)
          = ids.map (fun _ => cfg.defaultItemHeight) := by
        apply List.map_congr_left
        intro x _
        rfl
      rw [hmap, Vir.Meas.sum_map_const_rat]
    · unfold Vir.Meas.getTotalHeight
      rw [if_neg hm, Vir.Meas.totalStep_foldl, Vir.Meas.sum_heights_split cfg]
      push_cast
      ring
  · intro hm
    subst hm
    unfold Vir.Meas.getTotalHeight
    rw [if_pos (show ([] : List (α × Vir.Meas.ItemMeasurement)).length = 0
      from rfl)]

/-- C4 witness: the empty-map branch evaluated through the main theorem. -/
theorem vir_C4_witness :
    Vir.Meas.getTotalHeight ⟨100, 10⟩ 5 [7, 8, 9]
        ([] : List (ℕ × Vir.Meas.ItemMeasurement))
      = (3 : ℚ) * 100 + (2 : ℚ) * 10 := by
  have h := (vir_C4_total_height (α := ℕ) ⟨100, 10⟩ 5 [7, 8, 9] []).2 rfl
  rw [h]
  norm_num

namespace Vir

variable {α : Type} [DecidableEq α]

namespace Manager

/-- Construction-time configuration of `VirtualizedListManager`
(src/src/core/VirtualizedListManager.ts, lines 38-55): default item height
(default 100), gap (default 0) and the maximization policy. -/
structure Config where
  defaultItemHeight : ℚ := 100
  gap : ℚ := 0
  maximization : MaximizationConfig
deriving DecidableEq

/-- The `VirtualizedListManager` state touched by the measurement, maximize
and viewport paths. `items` is the provider's ordered id list:
`dataProvider.getTotalCount()` is its length and
`dataProvider.getData(0, count - 1)` returns exactly these ids in order
(content is opaque and omitted). -/
structure State (α : Type) where
  items : List α
  measurements : List (α × ItemMeasurement)
  maximizedItemId : Option α := none
  maximizedHeight : ℚ := 0
  containerHeight : ℚ := 0
  scrollTop : ℚ := 0
  isInitialized : Bool := false
deriving DecidableEq

/-- The position-rebuilding loop of
`VirtualizedListManager.updateMeasurements`
(src/src/core/VirtualizedListManager.ts, lines 233-256): reuse a stored
nonzero height (JS `|| defaultItemHeight`), override with the maximized
height for the maximized item when it is positive and the mode is not
natural, store the entry at the running top, and advance by height plus gap
(no gap after the last item). -/
def updateLoop (cfg : Config) (maximizedItemId : Option α)
    (maximizedHeight : ℚ) :
    List α → List (α × ItemMeasurement) → ℚ → List (α × ItemMeasurement)
  | [], m, _ => m
  | id :: rest, m, currentTop =>
    let height0 :=
      match mget m id with
      | some measurement =>
          if measurement.height = 0 then cfg.defaultItemHeight
          else measurement.height
      | none => cfg.defaultItemHeight
    let height :=
      if maximizedItemId = some id ∧ maximizedHeight > 0 ∧
          cfg.maximization.mode ≠ .natural then
        maximizedHeight
      else height0
    updateLoop cfg maximizedItemId maximizedHeight rest
      (mset m id ⟨height, currentTop⟩)
      (currentTop + height + (if rest = [] then 0 else cfg.gap))

/-- The placeholder-cleanup step of
`VirtualizedListManager.updateMeasurements`
(src/src/core/VirtualizedListManager.ts, lines 225-231 and 109-129).
`isPlaceholderId` and `isErrorId` model `id.startsWith("__placeholder-")`
and `id.startsWith("__error-")` on opaque ids. When no current item is a
placeholder and stale placeholder or error keys exist in the map, the
source deletes them and calls `updateMeasurements` recursively; that inner
call finds nothing left to clean, so it amounts to one inner run of the
rebuild loop over the purged map. -/
def placeholderPurge (cfg : Config) (isPlaceholderId isErrorId : α → Bool)
    (s : State α) : List (α × ItemMeasurement) :=
  let allItems := s.items
  let isRealData := ¬ allItems.any (fun id => isPlaceholderId id)
  if isRealData then
    let keysToRemove := (s.measurements.filter
      (fun p => isPlaceholderId p.1 || isErrorId p.1)).map Prod.fst
    if keysToRemove = [] then s.measurements
    else
      let cleaned := s.measurements.filter
        (fun p => !(isPlaceholderId p.1 || isErrorId p.1))
      updateLoop cfg s.maximizedItemId s.maximizedHeight allItems cleaned 0
  else s.measurements

/-- `VirtualizedListManager.updateMeasurements`
(src/src/core/VirtualizedListManager.ts, lines 219-257): nothing to do on an
empty dataset; otherwise run the placeholder purge and then the
position-rebuilding loop over all items from top 0. -/
def updateMeasurements (cfg : Config) (isPlaceholderId isErrorId : α → Bool)
    (s : State α) : State α :=
  let totalCount := s.items.length
  if totalCount = 0 then s
  else
    let m0 := placeholderPurge cfg isPlaceholderId isErrorId s
    { s with measurements :=
        updateLoop cfg s.maximizedItemId s.maximizedHeight s.items m0 0 }

/-- The height `updateLoop` stores for an id: the stored nonzero height (or
the default), overridden by the maximized height for the maximized item when
that height is positive and the mode is not natural. -/
def effHeightM (cfg : Config) (maximizedItemId : Option α)
    (maximizedHeight : ℚ) (m : List (α × ItemMeasurement)) (id : α) : ℚ :=
  let height0 :=
    match mget m id with
    | some measurement =>
        if measurement.height = 0 then cfg.defaultItemHeight
        else measurement.height
    | none => cfg.defaultItemHeight
  if maximizedItemId = some id ∧ maximizedHeight > 0 ∧
      cfg.maximization.mode ≠ .natural then
    maximizedHeight
  else height0

theorem updateLoop_cons (cfg : Config) (maximizedItemId : Option α)
    (maximizedHeight : ℚ) (a : α) (rest : List α)
    (m : List (α × ItemMeasurement)) (t : ℚ) :
    updateLoop cfg maximizedItemId maximizedHeight (a :: rest) m t
      = updateLoop cfg maximizedItemId maximizedHeight rest
          (mset m a ⟨effHeightM cfg maximizedItemId maximizedHeight m a, t⟩)
          (t + effHeightM cfg maximizedItemId maximizedHeight m a
            + (if rest = [] then 0 else cfg.gap)) := rfl

/-- `VirtualizedListManager.toggleMaximize`
(src/src/core/VirtualizedListManager.ts, lines 282-301): toggling the
currently maximized id clears maximization, toggling another id replaces it
and computes the maximized height from the policy; both paths then rebuild
the position index. The scheduled scroll side effect does not change this
state. -/
def toggleMaximize (cfg : Config) (isPlaceholderId isErrorId : α → Bool)
    (s : State α) (itemId : α) (customMaximizedHeight : Option ℚ) :
    State α :=
  let s1 :=
    if s.maximizedItemId = some itemId then
      { s with maximizedItemId := none, maximizedHeight := 0 }
    else
      let newHeight := calculateMaximizedHeight cfg.maximization
        s.containerHeight customMaximizedHeight
      { s with maximizedItemId := some itemId, maximizedHeight := newHeight }
  updateMeasurements cfg isPlaceholderId isErrorId s1

/-- `VirtualizedListManager.measureItem`
(src/src/core/VirtualizedListManager.ts, lines 198-217): ignore non-positive
heights; when the height differs from the stored one by more than 1, store
it (with top 0) and rebuild immediately and once more from the scheduled
animation frame. -/
def measureItem (cfg : Config) (isPlaceholderId isErrorId : α → Bool)
    (s : State α) (id : α) (height : ℚ) : State α :=
  if height ≤ 0 then s
  else
    let hasChanged : Bool :=
      match mget s.measurements id with
      | some existingMeasurement =>
          decide (|existingMeasurement.height - height| > 1)
      | none => true
    if hasChanged then
      let s1 := { s with measurements := mset s.measurements id ⟨height, 0⟩ }
      let s2 := updateMeasurements cfg isPlaceholderId isErrorId s1
      updateMeasurements cfg isPlaceholderId isErrorId s2
    else s

theorem updateMeasurements_fields (cfg : Config)
    (isPlaceholderId isErrorId : α → Bool) (s : State α) :
    (updateMeasurements cfg isPlaceholderId isErrorId s).maximizedItemId
        = s.maximizedItemId ∧
    (updateMeasurements cfg isPlaceholderId isErrorId s).items = s.items ∧
    (updateMeasurements cfg isPlaceholderId isErrorId s).maximizedHeight
        = s.maximizedHeight := by
  unfold updateMeasurements
  by_cases h : s.items.length = 0
  · rw [if_pos h]
    exact ⟨rfl, rfl, rfl⟩
  · rw [if_neg h]
    exact ⟨rfl, rfl, rfl⟩

theorem effHeightM_eq_of_stored (cfg : Config) (maximizedItemId : Option α)
    (maximizedHeight : ℚ) (m : List (α × ItemMeasurement)) (a : α)
    (e : ItemMeasurement) (hk : mget m a = some e) (hh : e.height ≠ 0)
    (hmax : maximizedItemId ≠ some a) :
    effHeightM cfg maximizedItemId maximizedHeight m a = e.height := by
  unfold effHeightM
  rw [if_neg (fun hc => hmax hc.1)]
  simp only [hk]
  rw [if_neg hh]

theorem mget_updateLoop_height_preserved (cfg : Config)
    (maximizedItemId : Option α) (maximizedHeight : ℚ) (ids : List α) :
    ∀ (m : List (α × ItemMeasurement)) (t : ℚ) (k : α)
      (e : ItemMeasurement),
    mget m k = some e → e.height ≠ 0 → maximizedItemId ≠ some k →
    ∃ e', mget (updateLoop cfg maximizedItemId maximizedHeight ids m t) k
        = some e' ∧ e'.height = e.height := by
  induction ids with
  | nil =>
    intro m t k e hk hh _
    exact ⟨e, hk, rfl⟩
  | cons a rest ih =>
    intro m t k e hk hh hmax
    rw [updateLoop_cons]
    by_cases hak : a = k
    · subst hak
      have hv : effHeightM cfg maximizedItemId maximizedHeight m a
          = e.height := effHeightM_eq_of_stored _ _ _ _ _ _ hk hh hmax
      have hne : (⟨effHeightM cfg maximizedItemId maximizedHeight m a, t⟩ :
          ItemMeasurement).height ≠ 0 := by
        show effHeightM cfg maximizedItemId maximizedHeight m a ≠ 0
        rw [hv]
        exact hh
      obtain ⟨e', he', hh'⟩ := ih
        (mset m a ⟨effHeightM cfg maximizedItemId maximizedHeight m a, t⟩)
        (t + effHeightM cfg maximizedItemId maximizedHeight m a
          + (if rest = [] then 0 else cfg.gap)) a
        ⟨effHeightM cfg maximizedItemId maximizedHeight m a, t⟩
        (by rw [mget_mset, if_pos rfl]) hne hmax
      exact ⟨e', he', hh'.trans hv⟩
    · exact ih _ _ k e
        (by rw [mget_mset, if_neg (fun hc => hak hc.symm)]; exact hk) hh hmax

end Manager

end Vir

namespace Vir

variable {α : Type} [DecidableEq α]

namespace Manager

theorem mget_placeholderPurge_height_preserved (cfg : Config)
    (isPlaceholderId isErrorId : α → Bool) (s : State α) (k : α)
    (e : ItemMeasurement) (hk : mget s.measurements k = some e)
    (hh : e.height ≠ 0) (hmax : s.maximizedItemId ≠ some k)
    (hp : isPlaceholderId k = false) (he : isErrorId k = false) :
    ∃ e0, mget (placeholderPurge cfg isPlaceholderId isErrorId s) k
        = some e0 ∧ e0.height = e.height := by
  simp only [placeholderPurge]
  split_ifs with h1 h2
  all_goals try exact ⟨e, hk, rfl⟩
  · have hclean : mget (s.measurements.filter
        (fun p => !(isPlaceholderId p.1 || isErrorId p.1))) k = some e :=
      mget_filter_of_pos _ _ _ _ hk (by simp [hp, he])
    exact mget_updateLoop_height_preserved cfg
      s.maximizedItemId s.maximizedHeight s.items _ 0 k e hclean hh hmax

theorem mget_updateMeasurements_height_preserved (cfg : Config)
    (isPlaceholderId isErrorId : α → Bool) (s : State α) (k : α)
    (e : ItemMeasurement) (hk : mget s.measurements k = some e)
    (hh : e.height ≠ 0) (hmax : s.maximizedItemId ≠ some k)
    (hp : isPlaceholderId k = false) (he : isErrorId k = false) :
    ∃ e',
      mget (updateMeasurements cfg isPlaceholderId isErrorId s).measurements k
        = some e' ∧ e'.height = e.height := by
  by_cases h0 : s.items.length = 0
  · rw [show updateMeasurements cfg isPlaceholderId isErrorId s = s from by
      unfold updateMeasurements; rw [if_pos h0]]
    exact ⟨e, hk, rfl⟩
  · obtain ⟨e0, he0, hh0⟩ := mget_placeholderPurge_height_preserved cfg
      isPlaceholderId isErrorId s k e hk hh hmax hp he
    have hres : (updateMeasurements cfg isPlaceholderId isErrorId
        s).measurements = updateLoop cfg s.maximizedItemId s.maximizedHeight
          s.items (placeholderPurge cfg isPlaceholderId isErrorId s) 0 := by
      unfold updateMeasurements
      rw [if_neg h0]
    rw [hres]
    obtain ⟨e', he', hh'⟩ := mget_updateLoop_height_preserved cfg
      s.maximizedItemId s.maximizedHeight s.items _ 0 k e0 he0
      (by rw [hh0]; exact hh) hmax
    exact ⟨e', he', hh'.trans hh0⟩

end Manager

end Vir

/-- C5 counterexample: measure both items at height 50, maximize item 1
(stored height becomes the maximized 640), then toggle item 2; after the
rebuild performed by that toggle, item 1's stored height is still the
maximized 640, not its last measured non-maximized value 50 — so its height
does not revert toward the measured value on the rebuild. -/
theorem vir_C5_counterexample :
    (Vir.mget (Vir.Manager.toggleMaximize
        ⟨100, 0, ⟨.fixed, none, none, true, none⟩⟩ (fun _ => false)
        (fun _ => false)
        (Vir.Manager.toggleMaximize
          ⟨100, 0, ⟨.fixed, none, none, true, none⟩⟩ (fun _ => false)
          (fun _ => false)
          ⟨[1, 2], [(1, ⟨50, 0⟩), (2, ⟨50, 50⟩)], none, 0, 800, 0, true⟩
          1 none)
        2 none).measurements 1).map Vir.Manager.ItemMeasurement.height
      = some 640 ∧
    ((Vir.mget (Vir.Manager.toggleMaximize
        ⟨100, 0, ⟨.fixed, none, none, true, none⟩⟩ (fun _ => false)
        (fun _ => false)
        (Vir.Manager.toggleMaximize
          ⟨100, 0, ⟨.fixed, none, none, true, none⟩⟩ (fun _ => false)
          (fun _ => false)
          ⟨[1, 2], [(1, ⟨50, 0⟩), (2, ⟨50, 50⟩)], none, 0, 800, 0, true⟩
          1 none)
        2 none).measurements 1).map Vir.Manager.ItemMeasurement.height
      = some 50 → False) := by
  have hcase : (Vir.mget (Vir.Manager.toggleMaximize
        ⟨100, 0, ⟨.fixed, none, none, true, none⟩⟩ (fun _ => false)
        (fun _ => false)
        (Vir.Manager.toggleMaximize
          ⟨100, 0, ⟨.fixed, none, none, true, none⟩⟩ (fun _ => false)
          (fun _ => false)
          ⟨[1, 2], [(1, ⟨50, 0⟩), (2, ⟨50, 50⟩)], none, 0, 800, 0, true⟩
          1 none)
        2 none).measurements 1).map Vir.Manager.ItemMeasurement.height
      = some 640 := by
    simp +decide only [Vir.Manager.toggleMaximize,
      Vir.Manager.updateMeasurements, Vir.Manager.placeholderPurge,
      Vir.Manager.updateLoop, Vir.Manager.calculateMaximizedHeight,
      Vir.Manager.truthy, Vir.Manager.orDefault, Vir.mget, Vir.mset]
    norm_num
  refine ⟨hcase, fun hc => ?_⟩
  rw [hcase] at hc
  exact absurd (Option.some.inj hc) (by norm_num)

/-- C5 (amended): at most one item is maximized at any time; toggling B
while A is maximized leaves exactly B maximized and A not maximized, with
A's stored height left unchanged by the toggle's rebuild (it keeps the
previously stored — possibly maximized — height until A is re-measured);
toggling the currently maximized id returns the state to none-maximized. -/
theorem vir_C5_maximize_exclusive {α : Type} [DecidableEq α]
    (cfg : Vir.Manager.Config) (isPlaceholderId isErrorId : α → Bool)
    (s : Vir.Manager.State α) (custom : Option ℚ) :
    (∀ x y : α, s.maximizedItemId = some x → s.maximizedItemId = some y →
      x = y) ∧
    (∀ A B : α, s.maximizedItemId = some A → A ≠ B →
      (Vir.Manager.toggleMaximize cfg isPlaceholderId isErrorId s B
          custom).maximizedItemId = some B ∧
      ((Vir.Manager.toggleMaximize cfg isPlaceholderId isErrorId s B
          custom).maximizedItemId = some A → False)) ∧
    (∀ (A B : α) (e : Vir.Manager.ItemMeasurement),
      s.maximizedItemId = some A → A ≠ B →
      isPlaceholderId A = false → isErrorId A = false →
      Vir.mget s.measurements A = some e → e.height ≠ 0 →
      ∃ e', Vir.mget (Vir.Manager.toggleMaximize cfg isPlaceholderId
          isErrorId s B custom).measurements A = some e' ∧
        e'.height = e.height) ∧
    (∀ A : α, s.maximizedItemId = some A →
      (Vir.Manager.toggleMaximize cfg isPlaceholderId isErrorId s A
          custom).maximizedItemId = none) := by
  refine ⟨?_, ?_, ?_, ?_⟩
  · intro x y hx hy
    exact Option.some.inj (hx.symm.trans hy)
  · intro A B hA hAB
    have hcond : ¬ s.maximizedItemId = some B := by
      intro hc
      exact hAB (Option.some.inj (hA.symm.trans hc))
    have hB : (Vir.Manager.toggleMaximize cfg isPlaceholderId isErrorId s B
        custom).maximizedItemId = some B := by
      unfold Vir.Manager.toggleMaximize
      rw [if_neg hcond, (Vir.Manager.updateMeasurements_fields cfg
        isPlaceholderId isErrorId _).1]
    refine ⟨hB, fun hc => ?_⟩
    exact hAB (Option.some.inj (hB.symm.trans hc)).symm
  · intro A B e hA hAB hp he hk hh
    have hcond : ¬ s.maximizedItemId = some B := by
      intro hc
      exact hAB (Option.some.inj (hA.symm.trans hc))
    unfold Vir.Manager.toggleMaximize
    rw [if_neg hcond]
    refine Vir.Manager.mget_updateMeasurements_height_preserved cfg isPlaceholderId isErrorId { s with maximizedItemId := some B, maximizedHeight := Vir.Manager.calculateMaximizedHeight cfg.maximization s.containerHeight custom } A e hk hh ?_ hp he
    show ¬ some B = some A
    intro hc
    exact hAB (Option.some.inj hc).symm
  · intro A hA
    unfold Vir.Manager.toggleMaximize
    rw [if_pos hA, (Vir.Manager.updateMeasurements_fields cfg
      isPlaceholderId isErrorId _).1]

/-- C5 witness: the amended exclusivity and height-stability statements
evaluated at a concrete two-item state through the main theorem. -/
theorem vir_C5_witness :
    (Vir.Manager.toggleMaximize ⟨100, 0, ⟨.fixed, none, none, true, none⟩⟩
        (fun _ => false) (fun _ => false)
        ⟨[1, 2], [(1, ⟨640, 0⟩), (2, ⟨50, 640⟩)], some 1, 640, 800, 0, true⟩
        2 none).maximizedItemId = some 2 ∧
    (∃ e', Vir.mget (Vir.Manager.toggleMaximize
        ⟨100, 0, ⟨.fixed, none, none, true, none⟩⟩
        (fun _ => false) (fun _ => false)
        ⟨[1, 2], [(1, ⟨640, 0⟩), (2, ⟨50, 640⟩)], some 1, 640, 800, 0, true⟩
        2 none).measurements 1 = some e' ∧ e'.height = (640 : ℚ)) ∧
    (Vir.Manager.toggleMaximize ⟨100, 0, ⟨.fixed, none, none, true, none⟩⟩
        (fun _ => false) (fun _ => false)
        ⟨[1, 2], [(1, ⟨640, 0⟩), (2, ⟨50, 640⟩)], some 1, 640, 800, 0, true⟩
        1 none).maximizedItemId = none := by
  have h := vir_C5_maximize_exclusive (α := ℕ)
    ⟨100, 0, ⟨.fixed, none, none, true, none⟩⟩ (fun _ => false)
    (fun _ => false)
    ⟨[1, 2], [(1, ⟨640, 0⟩), (2, ⟨50, 640⟩)], some 1, 640, 800, 0, true⟩ none
  refine ⟨(h.2.1 1 2 rfl (by decide)).1, ?_, h.2.2.2 1 rfl⟩
  have h3 := h.2.2.1 1 2 ⟨640, 0⟩ rfl (by decide) rfl rfl (by decide)
    (by norm_num)
  exact h3

namespace Vir

variable {α : Type} [DecidableEq α]

namespace Manager

/-- `dataProvider.getData(i, j)` for the in-memory provider: the items with
JS indices i through j inclusive (empty when j < i). -/
def getData (items : List α) (i j : ℤ) : List α :=
  if j < i then []
  else (items.drop i.toNat).take (j - i + 1).toNat

/-- `VirtualizedListManager.getTotalHeight`
(src/src/core/VirtualizedListManager.ts, lines 259-280): with no entries,
count x default plus gaps; otherwise the sum of all stored heights, plus
default heights for `count - size` remaining items, plus gaps. -/
def getTotalHeight (cfg : Config) (s : State α) : ℚ :=
  let totalCount := s.items.length
  if s.measurements.length = 0 then
    (totalCount : ℚ) * cfg.defaultItemHeight
      + ((totalCount - 1 : ℕ) : ℚ) * cfg.gap
  else
    let totalHeight := (s.measurements.map (fun p => p.2.height)).sum
    let measuredItems := s.measurements.length
    let unmeasuredItems := (totalCount : ℚ) - (measuredItems : ℚ)
    let unmeasuredHeight := unmeasuredItems * cfg.defaultItemHeight
    let totalGaps := ((totalCount - 1 : ℕ) : ℚ) * cfg.gap
    totalHeight + unmeasuredHeight + totalGaps

/-- `ViewportInfo` from src/src/types (second document); indices are signed
because the walk uses -1 as a sentinel. -/
structure ViewportInfo where
  scrollTop : ℚ
  containerHeight : ℚ
  startIndex : ℤ
  endIndex : ℤ
  totalHeight : ℚ
  totalCount : ℕ
deriving DecidableEq

/-- The measured-range walk of `VirtualizedListManager.getViewportInfo`
(src/src/core/VirtualizedListManager.ts, lines 377-391): scan the items with
their indices; for each measured item intersecting the overscanned viewport,
extend the running start and end indices by min and max. -/
def viewportWalk (m : List (α × ItemMeasurement))
    (viewportTop viewportBottom : ℚ) :
    List (ℕ × α) → ℤ × ℤ → ℤ × ℤ
  | [], acc => acc
  | (i, id) :: rest, acc =>
    let acc' :=
      match mget m id with
      | some measurement =>
          if measurement.top + measurement.height ≥ viewportTop ∧
              measurement.top ≤ viewportBottom then
            (min acc.1 (i : ℤ), max acc.2 (i : ℤ))
          else acc
      | none => acc
    viewportWalk m viewportTop viewportBottom rest acc'

/-- `private overscan = 5` (src/src/core/VirtualizedListManager.ts,
line 24). -/
def overscan : ℚ := 5

/-- `VirtualizedListManager.getViewportInfo`
(src/src/core/VirtualizedListManager.ts, lines 344-412): uninitialized or
empty lists short-circuit; otherwise rebuild measurements, then walk the
measured positions against the overscanned viewport, falling back to an
index estimate when no measured item intersects, and clamp the resulting
range. -/
def getViewportInfo (cfg : Config) (isPlaceholderId isErrorId : α → Bool)
    (s : State α) : ViewportInfo :=
  let totalCount := s.items.length
  if ¬ s.isInitialized ∨ totalCount = 0 then
    { scrollTop := 0, containerHeight := s.containerHeight, startIndex := 0,
      endIndex := min ((totalCount : ℤ) - 1) 10,
      totalHeight := (totalCount : ℚ) * cfg.defaultItemHeight,
      totalCount := totalCount }
  else
    let s := updateMeasurements cfg isPlaceholderId isErrorId s
    let totalHeight := getTotalHeight cfg s
    let range :=
      if 0 < s.measurements.length ∧ 0 < totalCount then
        let overscanHeight := overscan * cfg.defaultItemHeight
        let viewportTop := s.scrollTop - overscanHeight
        let viewportBottom := s.scrollTop + s.containerHeight + overscanHeight
        let allItems := getData s.items 0 ((totalCount : ℤ) - 1)
        let walked := viewportWalk s.measurements viewportTop viewportBottom
          allItems.enum ((totalCount : ℤ), -1)
        if walked.1 = (totalCount : ℤ) ∨ walked.2 = -1 then
          let averageItemWithGap := cfg.defaultItemHeight + cfg.gap
          let si := max 0 (min ⌊viewportTop / averageItemWithGap⌋
            ((totalCount : ℤ) - 1))
          let ei := max si (min ⌈viewportBottom / averageItemWithGap⌉
            ((totalCount : ℤ) - 1))
          (si, ei)
        else walked
      else (0, (totalCount : ℤ) - 1)
    { scrollTop := s.scrollTop, containerHeight := s.containerHeight,
      startIndex := max 0 range.1,
      endIndex := min ((totalCount : ℤ) - 1) range.2,
      totalHeight := totalHeight, totalCount := totalCount }

theorem mget_updateLoop_not_mem (cfg : Config) (maximizedItemId : Option α)
    (maximizedHeight : ℚ) (ids : List α)
    (m : List (α × ItemMeasurement)) (t : ℚ) (k : α) :
    k ∉ ids →
    mget (updateLoop cfg maximizedItemId maximizedHeight ids m t) k
      = mget m k := by
  induction ids generalizing m t with
  | nil => intro _; rfl
  | cons a rest ih =>
    intro hk
    simp only [List.mem_cons, not_or] at hk
    rw [updateLoop_cons, ih _ _ hk.2, mget_mset, if_neg hk.1]

theorem mget_updateLoop_get (cfg : Config) (maximizedItemId : Option α)
    (maximizedHeight : ℚ) (ids : List α) :
    ids.Nodup → ∀ (m : List (α × ItemMeasurement)) (t0 : ℚ) (i : ℕ)
    (hi : i < ids.length),
    mget (updateLoop cfg maximizedItemId maximizedHeight ids m t0)
        (ids.get ⟨i, hi⟩)
      = some ⟨effHeightM cfg maximizedItemId maximizedHeight m
            (ids.get ⟨i, hi⟩),
          t0 + ((ids.take i).map (fun id =>
            effHeightM cfg maximizedItemId maximizedHeight m id
              + cfg.gap)).sum⟩ := by
  induction ids with
  | nil =>
    intro _ m t0 i hi
    exact absurd hi (by simp)
  | cons a rest ih =>
    intro hnd m t0 i hi
    obtain ⟨hna, hndr⟩ := List.nodup_cons.mp hnd
    cases i with
    | zero =>
      rw [updateLoop_cons, show ((a :: rest).get ⟨0, hi⟩) = a from rfl,
        mget_updateLoop_not_mem cfg _ _ rest _ _ a hna, mget_mset,
        if_pos rfl]
      simp
    | succ n =>
      have hi' : n < rest.length := by simpa using hi
      have hrest : rest ≠ [] := by
        intro hc
        rw [hc] at hi'
        exact absurd hi' (by simp)
      rw [updateLoop_cons,
        show ((a :: rest).get ⟨n + 1, hi⟩) = rest.get ⟨n, hi'⟩ from rfl,
        ih hndr _ _ n hi']
      have heff : ∀ x ∈ rest,
          effHeightM cfg maximizedItemId maximizedHeight
            (mset m a ⟨effHeightM cfg maximizedItemId maximizedHeight m a,
              t0⟩) x
            = effHeightM cfg maximizedItemId maximizedHeight m x := by
        intro x hx
        have hxa : ¬ x = a := fun hc => hna (hc ▸ hx)
        simp [effHeightM, mget_mset, hxa]
      simp only [Option.some.injEq, ItemMeasurement.mk.injEq]
      refine ⟨heff _ (List.get_mem rest n hi'), ?_⟩
      rw [List.map_congr_left
        (fun x hx => by rw [heff x (List.take_subset n rest hx)] :
          ∀ x ∈ rest.take n,
            effHeightM cfg maximizedItemId maximizedHeight
              (mset m a ⟨effHeightM cfg maximizedItemId maximizedHeight m a,
                t0⟩) x + cfg.gap
            = effHeightM cfg maximizedItemId maximizedHeight m x + cfg.gap),
        List.take_succ_cons, List.map_cons, List.sum_cons, if_neg hrest]
      ring

end Manager

end Vir

namespace Vir

variable {α : Type} [DecidableEq α]

namespace Manager

theorem viewportWalk_cons (m : List (α × ItemMeasurement))
    (vT vB : ℚ) (i : ℕ) (id : α) (rest : List (ℕ × α)) (acc : ℤ × ℤ) :
    viewportWalk m vT vB ((i, id) :: rest) acc
      = viewportWalk m vT vB rest
          (match mget m id with
           | some measurement =>
               if measurement.top + measurement.height ≥ vT ∧
                   measurement.top ≤ vB then
                 (min acc.1 (i : ℤ), max acc.2 (i : ℤ))
               else acc
           | none => acc) := rfl

theorem viewportWalk_cons_some (m : List (α × ItemMeasurement))
    (vT vB : ℚ) (i : ℕ) (id : α) (rest : List (ℕ × α)) (acc : ℤ × ℤ)
    (e : ItemMeasurement) (hm : mget m id = some e) :
    viewportWalk m vT vB ((i, id) :: rest) acc
      = viewportWalk m vT vB rest
          (if e.top + e.height ≥ vT ∧ e.top ≤ vB then
            (min acc.1 (i : ℤ), max acc.2 (i : ℤ))
          else acc) := by
  rw [viewportWalk_cons, hm]

theorem viewportWalk_cons_none (m : List (α × ItemMeasurement))
    (vT vB : ℚ) (i : ℕ) (id : α) (rest : List (ℕ × α)) (acc : ℤ × ℤ)
    (hm : mget m id = none) :
    viewportWalk m vT vB ((i, id) :: rest) acc
      = viewportWalk m vT vB rest acc := by
  rw [viewportWalk_cons, hm]

theorem viewportWalk_mono (m : List (α × ItemMeasurement)) (vT vB : ℚ) :
    ∀ (l : List (ℕ × α)) (acc : ℤ × ℤ),
    (viewportWalk m vT vB l acc).1 ≤ acc.1 ∧
    acc.2 ≤ (viewportWalk m vT vB l acc).2 := by
  intro l
  induction l with
  | nil => intro acc; exact ⟨le_refl _, le_refl _⟩
  | cons p rest ih =>
    intro acc
    obtain ⟨i, id⟩ := p
    cases hm : mget m id with
    | none =>
      rw [viewportWalk_cons_none m vT vB i id rest acc hm]
      exact ih acc
    | some e =>
      rw [viewportWalk_cons_some m vT vB i id rest acc e hm]
      by_cases hq : e.top + e.height ≥ vT ∧ e.top ≤ vB
      · rw [if_pos hq]
        obtain ⟨h1, h2⟩ := ih (min acc.1 (i : ℤ), max acc.2 (i : ℤ))
        exact ⟨le_trans h1 (min_le_left _ _), le_trans (le_max_left _ _) h2⟩
      · rw [if_neg hq]
        exact ih acc

theorem viewportWalk_hit (m : List (α × ItemMeasurement)) (vT vB : ℚ) :
    ∀ (l : List (ℕ × α)) (acc : ℤ × ℤ) (i : ℕ) (id : α)
      (e : ItemMeasurement),
    (i, id) ∈ l → mget m id = some e →
    e.top + e.height ≥ vT → e.top ≤ vB →
    (viewportWalk m vT vB l acc).1 ≤ (i : ℤ) ∧
    (i : ℤ) ≤ (viewportWalk m vT vB l acc).2 := by
  intro l
  induction l with
  | nil =>
    intro acc i id e hmem
    exact absurd hmem (List.not_mem_nil _)
  | cons p rest ih =>
    intro acc i id e hmem hm h1 h2
    obtain ⟨j, jd⟩ := p
    rcases List.mem_cons.mp hmem with hp | hp
    · injection hp with hj hjd
      subst hj
      subst hjd
      rw [viewportWalk_cons_some m vT vB i id rest acc e hm,
        if_pos ⟨h1, h2⟩]
      obtain ⟨h3, h4⟩ := viewportWalk_mono m vT vB rest
        (min acc.1 (i : ℤ), max acc.2 (i : ℤ))
      exact ⟨le_trans h3 (min_le_right _ _), le_trans (le_max_right _ _) h4⟩
    · cases hmj : mget m jd with
      | none =>
        rw [viewportWalk_cons_none m vT vB j jd rest acc hmj]
        exact ih acc i id e hp hm h1 h2
      | some ej =>
        rw [viewportWalk_cons_some m vT vB j jd rest acc ej hmj]
        exact ih _ i id e hp hm h1 h2

theorem viewportWalk_lower (m : List (α × ItemMeasurement)) (vT vB : ℚ)
    (b : ℤ) :
    ∀ (l : List (ℕ × α)) (acc : ℤ × ℤ),
    b < acc.1 →
    (∀ (i : ℕ) (id : α) (e : ItemMeasurement), (i, id) ∈ l →
      mget m id = some e → e.top + e.height ≥ vT → e.top ≤ vB →
      b < (i : ℤ)) →
    b < (viewportWalk m vT vB l acc).1 := by
  intro l
  induction l with
  | nil => intro acc hacc _; exact hacc
  | cons p rest ih =>
    intro acc hacc hall
    obtain ⟨j, jd⟩ := p
    cases hmj : mget m jd with
    | none =>
      rw [viewportWalk_cons_none m vT vB j jd rest acc hmj]
      exact ih acc hacc
        (fun i id e hmem => hall i id e (List.mem_cons_of_mem _ hmem))
    | some ej =>
      rw [viewportWalk_cons_some m vT vB j jd rest acc ej hmj]
      by_cases hq : ej.top + ej.height ≥ vT ∧ ej.top ≤ vB
      · rw [if_pos hq]
        refine ih _ ?_
          (fun i id e hmem => hall i id e (List.mem_cons_of_mem _ hmem))
        have hj : b < (j : ℤ) :=
          hall j jd ej (List.mem_cons_self _ _) hmj hq.1 hq.2
        exact lt_min hacc hj
      · rw [if_neg hq]
        exact ih acc hacc
          (fun i id e hmem => hall i id e (List.mem_cons_of_mem _ hmem))

theorem viewportWalk_upper (m : List (α × ItemMeasurement)) (vT vB : ℚ)
    (c : ℤ) :
    ∀ (l : List (ℕ × α)) (acc : ℤ × ℤ),
    acc.2 < c →
    (∀ (i : ℕ) (id : α) (e : ItemMeasurement), (i, id) ∈ l →
      mget m id = some e → e.top + e.height ≥ vT → e.top ≤ vB →
      (i : ℤ) < c) →
    (viewportWalk m vT vB l acc).2 < c := by
  intro l
  induction l with
  | nil => intro acc hacc _; exact hacc
  | cons p rest ih =>
    intro acc hacc hall
    obtain ⟨j, jd⟩ := p
    cases hmj : mget m jd with
    | none =>
      rw [viewportWalk_cons_none m vT vB j jd rest acc hmj]
      exact ih acc hacc
        (fun i id e hmem => hall i id e (List.mem_cons_of_mem _ hmem))
    | some ej =>
      rw [viewportWalk_cons_some m vT vB j jd rest acc ej hmj]
      by_cases hq : ej.top + ej.height ≥ vT ∧ ej.top ≤ vB
      · rw [if_pos hq]
        refine ih _ ?_
          (fun i id e hmem => hall i id e (List.mem_cons_of_mem _ hmem))
        have hj : (j : ℤ) < c :=
          hall j jd ej (List.mem_cons_self _ _) hmj hq.1 hq.2
        exact max_lt hacc hj
      · rw [if_neg hq]
        exact ih acc hacc
          (fun i id e hmem => hall i id e (List.mem_cons_of_mem _ hmem))

end Manager

end Vir

namespace Vir

variable {α : Type} [DecidableEq α]

theorem mget_map_self {β : Type} (f : α → β) :
    ∀ (l : List α) (k : α),
    mget (l.map (fun a => (a, f a))) k = if k ∈ l then some (f k) else none := by
  intro l
  induction l with
  | nil => intro k; simp [mget]
  | cons a rest ih =>
    intro k
    simp only [List.map_cons, mget]
    by_cases hk : k = a
    · subst hk
      rw [if_pos rfl, if_pos (List.mem_cons_self _ _)]
    · rw [if_neg hk, ih]
      by_cases hr : k ∈ rest
      · rw [if_pos hr, if_pos (List.mem_cons_of_mem _ hr)]
      · rw [if_neg hr, if_neg (by simp [List.mem_cons, hk, hr])]

namespace Manager

theorem getData_all (items : List α) :
    getData items 0 ((items.length : ℤ) - 1) = items := by
  unfold getData
  cases items with
  | nil => rw [if_pos (by simp)]
  | cons a rest =>
    rw [if_neg (by simp only [List.length_cons]; push_cast; omega)]
    have h1 : (((a :: rest).length : ℤ) - 1 - 0 + 1).toNat
        = (a :: rest).length := by
      push_cast
      omega
    rw [h1, show ((0 : ℤ)).toNat = 0 from rfl, List.drop_zero,
      List.take_length]

theorem length_mset_ge {β : Type} (m : List (α × β)) (k : α) (v : β) :
    m.length ≤ (mset m k v).length := by
  induction m with
  | nil => simp [mset]
  | cons q rest ih =>
    simp only [mset]
    by_cases hq : q.1 = k
    · rw [if_pos hq]
      simp
    · rw [if_neg hq]
      simpa using ih

theorem length_updateLoop_ge (cfg : Config) (maximizedItemId : Option α)
    (maximizedHeight : ℚ) (ids : List α) :
    ∀ (m : List (α × ItemMeasurement)) (t : ℚ),
    m.length ≤ (updateLoop cfg maximizedItemId maximizedHeight ids m t).length := by
  induction ids with
  | nil => intro m t; exact le_refl _
  | cons a rest ih =>
    intro m t
    rw [updateLoop_cons]
    exact le_trans (length_mset_ge m a _) (ih _ _)

theorem getViewportInfo_range (cfg : Config)
    (isPlaceholderId isErrorId : α → Bool) (s : State α)
    (hinit : s.isInitialized = true) (hn : s.items.length ≠ 0)
    (hm : 0 < (updateMeasurements cfg isPlaceholderId isErrorId
      s).measurements.length)
    (w : ℤ × ℤ)
    (hw : viewportWalk
        (updateMeasurements cfg isPlaceholderId isErrorId s).measurements
        ((updateMeasurements cfg isPlaceholderId isErrorId s).scrollTop
          - overscan * cfg.defaultItemHeight)
        ((updateMeasurements cfg isPlaceholderId isErrorId s).scrollTop
          + (updateMeasurements cfg isPlaceholderId isErrorId
              s).containerHeight
          + overscan * cfg.defaultItemHeight)
        (getData (updateMeasurements cfg isPlaceholderId isErrorId s).items 0
          ((s.items.length : ℤ) - 1)).enum
        ((s.items.length : ℤ), -1) = w)
    (hw1 : w.1 ≠ (s.items.length : ℤ)) (hw2 : w.2 ≠ -1) :
    (getViewportInfo cfg isPlaceholderId isErrorId s).startIndex
        = max 0 w.1 ∧
    (getViewportInfo cfg isPlaceholderId isErrorId s).endIndex
        = min ((s.items.length : ℤ) - 1) w.2 := by
  have hcond : ¬(¬ s.isInitialized ∨ s.items.length = 0) := by
    simp [hinit, hn]
  simp only [getViewportInfo, if_neg hcond, if_pos (And.intro hm
    (Nat.pos_of_ne_zero hn)), hw, if_neg (not_or.mpr ⟨hw1, hw2⟩)]
  constructor <;> trivial

end Manager

end Vir

namespace Vir

/-- The C7 scenario configuration: default item height 100, gap 0. -/
def c7cfg : Manager.Config := ⟨100, 0, ⟨.fixed, none, none, true, none⟩⟩

/-- The C7 scenario state: 1000 items, every one measured at the default
height 100 (top = 100 x index), container height 400, scroll offset 5000. -/
def c7state : Manager.State ℕ :=
  { items := List.range 1000,
    measurements := (List.range 1000).map
      (fun i => (i, ⟨100, 100 * (i : ℚ)⟩)),
    maximizedItemId := none, maximizedHeight := 0, containerHeight := 400,
    scrollTop := 5000, isInitialized := true }

/-- The C7 scenario measurement map after the rebuild performed inside
`getViewportInfo`. -/
def c7M : List (ℕ × Manager.ItemMeasurement) :=
  Manager.updateLoop c7cfg none 0 (List.range 1000) c7state.measurements 0

theorem c7state_length : c7state.items.length = 1000 := by
  show (List.range 1000).length = 1000
  exact List.length_range 1000

theorem c7_purge :
    Manager.placeholderPurge c7cfg (fun _ => false) (fun _ => false) c7state
      = c7state.measurements := by
  simp [Manager.placeholderPurge]

theorem c7_update :
    Manager.updateMeasurements c7cfg (fun _ => false) (fun _ => false) c7state
      = { c7state with measurements := c7M } := by
  simp only [Manager.updateMeasurements]
  rw [if_neg (by rw [c7state_length]; norm_num), c7_purge]
  rfl

theorem c7_eff : ∀ id ∈ List.range 1000,
    Manager.effHeightM c7cfg none 0 c7state.measurements id = 100 := by
  intro id hid
  have hm : Vir.mget c7state.measurements id
      = some ⟨100, 100 * (id : ℚ)⟩ := by
    have h := mget_map_self
      (fun i : ℕ => (⟨100, 100 * (i : ℚ)⟩ : Manager.ItemMeasurement))
      (List.range 1000) id
    rw [if_pos hid] at h
    exact h
  norm_num [Manager.effHeightM, hm]

theorem c7_lookup : ∀ (k : ℕ), k < 1000 →
    Vir.mget c7M k = some ⟨100, 100 * (k : ℚ)⟩ := by
  intro k hk
  have h := Manager.mget_updateLoop_get c7cfg none 0 (List.range 1000)
    (List.nodup_range 1000) c7state.measurements 0 k
    (by rw [List.length_range]; exact hk)
  rw [List.get_range] at h
  have htake : (List.range 1000).take k = List.range k := by
    rw [List.take_range]
    congr 1
    omega
  have hmapc : ((List.range k).map (fun id =>
      Manager.effHeightM c7cfg none 0 c7state.measurements id + c7cfg.gap))
      = (List.range k).map (fun _ => (100 : ℚ)) :=
    List.map_congr_left (fun x hx => by
      rw [c7_eff x (List.mem_range.mpr
        (lt_trans (List.mem_range.mp hx) hk))]
      show (100 : ℚ) + c7cfg.gap = 100
      norm_num [c7cfg])
  rw [show Vir.mget c7M k = Vir.mget (Manager.updateLoop c7cfg none 0
    (List.range 1000) c7state.measurements 0) k from rfl, h]
  simp only [Option.some.injEq, Manager.ItemMeasurement.mk.injEq]
  refine ⟨c7_eff k (List.mem_range.mpr hk), ?_⟩
  rw [htake, hmapc, Vir.Meas.sum_map_const_rat, List.length_range]
  ring

theorem c7_mem_enum (i id : ℕ) :
    (i, id) ∈ (List.range 1000).enum ↔ id = i ∧ i < 1000 := by
  rw [List.mk_mem_enum_iff_getElem?]
  constructor
  · intro h
    by_cases hi : i < 1000
    · rw [List.getElem?_range hi] at h
      exact ⟨(Option.some.inj h).symm, hi⟩
    · rw [List.getElem?_eq_none
        (by rw [List.length_range]; omega)] at h
      exact absurd h (by simp)
  · rintro ⟨rfl, hi⟩
    rw [List.getElem?_range hi]

theorem c7_walk :
    Manager.viewportWalk c7M
      ((5000 : ℚ) - Manager.overscan * c7cfg.defaultItemHeight)
      ((5000 : ℚ) + 400 + Manager.overscan * c7cfg.defaultItemHeight)
      (List.range 1000).enum ((1000 : ℤ), -1) = (44, 59) := by
  have hvT : (5000 : ℚ) - Manager.overscan * c7cfg.defaultItemHeight
      = 4500 := by norm_num [Manager.overscan, c7cfg]
  have hvB : (5000 : ℚ) + 400 + Manager.overscan * c7cfg.defaultItemHeight
      = 5900 := by norm_num [Manager.overscan, c7cfg]
  rw [hvT, hvB]
  have hhit44 := Manager.viewportWalk_hit c7M 4500 5900
    (List.range 1000).enum ((1000 : ℤ), -1) 44 44 ⟨100, 100 * (44 : ℚ)⟩
    ((c7_mem_enum 44 44).mpr ⟨rfl, by norm_num⟩)
    (c7_lookup 44 (by norm_num)) (by norm_num) (by norm_num)
  have hhit59 := Manager.viewportWalk_hit c7M 4500 5900
    (List.range 1000).enum ((1000 : ℤ), -1) 59 59 ⟨100, 100 * (59 : ℚ)⟩
    ((c7_mem_enum 59 59).mpr ⟨rfl, by norm_num⟩)
    (c7_lookup 59 (by norm_num)) (by norm_num) (by norm_num)
  have hlow := Manager.viewportWalk_lower c7M 4500 5900 43
    (List.range 1000).enum ((1000 : ℤ), -1) (by norm_num)
    (by
      intro i id e hmem hm h1 h2
      obtain ⟨hid, hi⟩ := (c7_mem_enum i id).mp hmem
      subst hid
      rw [c7_lookup id hi] at hm
      obtain rfl := Option.some.inj hm
      have h1q : (100 : ℚ) * (id : ℚ) + 100 ≥ 4500 := by
        simpa using h1
      have h44 : (44 : ℚ) ≤ (id : ℚ) := by linarith
      have h44n : (44 : ℕ) ≤ id := by exact_mod_cast h44
      omega)
  have hupp := Manager.viewportWalk_upper c7M 4500 5900 60
    (List.range 1000).enum ((1000 : ℤ), -1) (by norm_num)
    (by
      intro i id e hmem hm h1 h2
      obtain ⟨hid, hi⟩ := (c7_mem_enum i id).mp hmem
      subst hid
      rw [c7_lookup id hi] at hm
      obtain rfl := Option.some.inj hm
      have h2q : (100 : ℚ) * (id : ℚ) ≤ 5900 := by simpa using h2
      have h59 : (id : ℚ) ≤ 59 := by linarith
      have h59n : id ≤ (59 : ℕ) := by exact_mod_cast h59
      omega)
  have h1 : (Manager.viewportWalk c7M 4500 5900 (List.range 1000).enum
      ((1000 : ℤ), -1)).1 = 44 := le_antisymm hhit44.1 (by omega)
  have h2 : (Manager.viewportWalk c7M 4500 5900 (List.range 1000).enum
      ((1000 : ℤ), -1)).2 = 59 := le_antisymm (by omega) hhit59.2
  exact Prod.ext h1 h2

end Vir

set_option maxHeartbeats 2000000 in
/-- C7: for 1000 items all measured at the default height 100 with gap 0,
scroll offset 5000, container height 400 and overscan 5 x 100, the visible
range computed by getViewportInfo is exactly indices 44 through 59: it
includes every index from 45 through 59 inclusive and excludes index 40 and
index 65. -/
theorem vir_C7_viewport :
    ((Vir.Manager.getViewportInfo Vir.c7cfg (fun _ => false) (fun _ => false)
        Vir.c7state).startIndex = 44 ∧
      (Vir.Manager.getViewportInfo Vir.c7cfg (fun _ => false)
        (fun _ => false) Vir.c7state).endIndex = 59) ∧
    (∀ i : ℤ, 45 ≤ i → i ≤ 59 →
      (Vir.Manager.getViewportInfo Vir.c7cfg (fun _ => false) (fun _ => false)
          Vir.c7state).startIndex ≤ i ∧
        i ≤ (Vir.Manager.getViewportInfo Vir.c7cfg (fun _ => false)
          (fun _ => false) Vir.c7state).endIndex) ∧
    ¬((Vir.Manager.getViewportInfo Vir.c7cfg (fun _ => false) (fun _ => false)
        Vir.c7state).startIndex ≤ 40 ∧
      (40 : ℤ) ≤ (Vir.Manager.getViewportInfo Vir.c7cfg (fun _ => false)
        (fun _ => false) Vir.c7state).endIndex) ∧
    ¬((Vir.Manager.getViewportInfo Vir.c7cfg (fun _ => false) (fun _ => false)
        Vir.c7state).startIndex ≤ 65 ∧
      (65 : ℤ) ≤ (Vir.Manager.getViewportInfo Vir.c7cfg (fun _ => false)
        (fun _ => false) Vir.c7state).endIndex) := by
  have hbase : Vir.c7state.measurements.length = 1000 := by
    show ((List.range 1000).map _).length = 1000
    rw [List.length_map, List.length_range]
  have hm0 : 0 < (Vir.Manager.updateMeasurements Vir.c7cfg (fun _ => false)
      (fun _ => false) Vir.c7state).measurements.length := by
    rw [Vir.c7_update]
    show 0 < (Vir.Manager.updateLoop Vir.c7cfg none 0 (List.range 1000)
      Vir.c7state.measurements 0).length
    have hge := Vir.Manager.length_updateLoop_ge Vir.c7cfg none 0
      (List.range 1000) Vir.c7state.measurements 0
    omega
  have hw : Vir.Manager.viewportWalk
      (Vir.Manager.updateMeasurements Vir.c7cfg (fun _ => false)
        (fun _ => false) Vir.c7state).measurements
      ((Vir.Manager.updateMeasurements Vir.c7cfg (fun _ => false)
          (fun _ => false) Vir.c7state).scrollTop
        - Vir.Manager.overscan * Vir.c7cfg.defaultItemHeight)
      ((Vir.Manager.updateMeasurements Vir.c7cfg (fun _ => false)
          (fun _ => false) Vir.c7state).scrollTop
        + (Vir.Manager.updateMeasurements Vir.c7cfg (fun _ => false)
            (fun _ => false) Vir.c7state).containerHeight
        + Vir.Manager.overscan * Vir.c7cfg.defaultItemHeight)
      (Vir.Manager.getData (Vir.Manager.updateMeasurements Vir.c7cfg
          (fun _ => false) (fun _ => false) Vir.c7state).items 0
        ((Vir.c7state.items.length : ℤ) - 1)).enum
      ((Vir.c7state.items.length : ℤ), -1) = ((44 : ℤ), 59) := by
    simp only [Vir.c7_update,
      show Vir.c7state.items = List.range 1000 from rfl,
      show Vir.c7state.scrollTop = (5000 : ℚ) from rfl,
      show Vir.c7state.containerHeight = (400 : ℚ) from rfl]
    simp only [Vir.Manager.getData_all (List.range 1000)]
    simp only [List.length_range]
    push_cast
    exact Vir.c7_walk
  have h := Vir.Manager.getViewportInfo_range Vir.c7cfg (fun _ => false)
    (fun _ => false) Vir.c7state rfl
    (by rw [Vir.c7state_length]; norm_num) hm0 ((44 : ℤ), 59) hw
    (by rw [Vir.c7state_length]; norm_num) (by norm_num)
  have hs : (Vir.Manager.getViewportInfo Vir.c7cfg (fun _ => false)
      (fun _ => false) Vir.c7state).startIndex = 44 := by
    rw [h.1]
    norm_num
  have he : (Vir.Manager.getViewportInfo Vir.c7cfg (fun _ => false)
      (fun _ => false) Vir.c7state).endIndex = 59 := by
    rw [h.2, Vir.c7state_length]
    norm_num
  refine ⟨⟨hs, he⟩, ?_, ?_, ?_⟩
  · intro i h45 h59
    rw [hs, he]
    omega
  · rw [hs, he]
    omega
  · rw [hs, he]
    omega

/-- C7 witness: index 45 is inside the computed range, through the main
theorem. -/
theorem vir_C7_witness :
    (45 : ℤ) ≤ 45 ∧ (45 : ℤ) ≤ 59 ∧
    (Vir.Manager.getViewportInfo Vir.c7cfg (fun _ => false) (fun _ => false)
        Vir.c7state).startIndex ≤ 45 ∧
    (45 : ℤ) ≤ (Vir.Manager.getViewportInfo Vir.c7cfg (fun _ => false)
        (fun _ => false) Vir.c7state).endIndex := by
  obtain ⟨h1, h2⟩ := vir_C7_viewport.2.1 45 (by norm_num) (by norm_num)
  exact ⟨by norm_num, by norm_num, h1, h2⟩

namespace Vir

variable {α : Type} [DecidableEq α]

namespace Scroll

/-- The outcome of a scroll request issued by
`ScrollContainer.scrollToItemById`: no scroll, a direct `scrollTop`
assignment, or a smooth `scrollTo`. -/
inductive ScrollAction where
  | none
  | setScrollTop (top : ℚ)
  | smoothScrollTo (top : ℚ)
deriving DecidableEq

/-- The `ScrollContainer` state read by `scrollToItemById`
(src/src/core/ScrollContainer.ts): whether a container element is attached,
its height, the current scroll offset, the configured default item height,
the provider's ordered items, and the value the injected `getTotalHeight`
callback returns. -/
structure SState (α : Type) where
  hasElement : Bool
  containerHeight : ℚ
  scrollTop : ℚ
  defaultItemHeight : ℚ
  items : List α
  totalHeight : ℚ
deriving DecidableEq

/-- `ScrollContainer.scrollToItemById` (src/src/core/ScrollContainer.ts,
lines 124-183). With no measurement, the id is looked up among the first
min(totalCount, 100) items and the estimate index x defaultItemHeight is
assigned directly (no clamping); nothing happens when the id is not in that
sample. With a measurement, a maximized target is centered, an unmaximized
target gets the minimal scroll that brings it fully into view (none when
already visible), and the target is clamped to
[0, max 0 (totalHeight - containerHeight)]. -/
def scrollToItemById (s : SState α) (itemId : α) (isMaximized : Bool)
    (measurement : Option Manager.ItemMeasurement) : ScrollAction :=
  if ¬ s.hasElement then .none
  else
    match measurement with
    | none =>
      -- Item not measured yet - try to find its index and estimate position
      let totalCount := s.items.length
      let sampleSize := min totalCount 100
      let items := Manager.getData s.items 0 ((sampleSize : ℤ) - 1)
      match items.findIdx? (fun x => x = itemId) with
      | some itemIndex =>
          .setScrollTop ((itemIndex : ℚ) * s.defaultItemHeight)
      | Option.none => .none
    | some measurement =>
      let itemTop := measurement.top
      let itemHeight := measurement.height
      let viewTop := s.scrollTop
      let viewBottom := viewTop + s.containerHeight
      let target :=
        if isMaximized then
          -- Center the maximized item
          some (itemTop - (s.containerHeight - itemHeight) / 2)
        else if itemTop < viewTop then some itemTop
        else if itemTop + itemHeight > viewBottom then
          some (itemTop + itemHeight - s.containerHeight)
        else Option.none -- Already visible
      match target with
      | Option.none => .none
      | some targetScrollTop =>
        let maxScrollTop := max 0 (s.totalHeight - s.containerHeight)
        .smoothScrollTo (max 0 (min targetScrollTop maxScrollTop))

end Scroll

end Vir

/-- C8 counterexample: with five items, an unmeasured target at index 4,
default height 100, total height 50 and container height 40, the request
assigns scrollTop 400 directly, which exceeds totalHeight - containerHeight
= 10 — so not every scroll-to-item request is clamped within
[0, totalHeight - containerHeight]. -/
theorem vir_C8_counterexample :
    Vir.Scroll.scrollToItemById
        (⟨true, 40, 0, 100, [0, 1, 2, 3, 4], 50⟩ : Vir.Scroll.SState ℕ)
        4 false none = .setScrollTop 400 ∧
    ¬((400 : ℚ) ≤ 50 - 40) := by
  constructor
  · simp only [Vir.Scroll.scrollToItemById, Vir.Manager.getData]
    norm_num [List.findIdx?_cons, List.findIdx?_nil]
  · norm_num

namespace Vir

variable {α : Type} [DecidableEq α]

namespace Scroll

/-- Unfolding of `scrollToItemById` on a measured target: the centered /
minimal-scroll target is clamped into [0, max 0 (totalHeight -
containerHeight)], and an already-visible unmaximized target scrolls
nothing. -/
theorem scrollToItemById_some (s : SState α) (itemId : α) (b : Bool)
    (e : Manager.ItemMeasurement) (hel : s.hasElement = true) :
    scrollToItemById s itemId b (some e) =
      if b then
        .smoothScrollTo (max 0 (min (e.top - (s.containerHeight - e.height) / 2) (max 0 (s.totalHeight - s.containerHeight))))
      else if e.top < s.scrollTop then
        .smoothScrollTo (max 0 (min e.top (max 0 (s.totalHeight - s.containerHeight))))
      else if e.top + e.height > s.scrollTop + s.containerHeight then
        .smoothScrollTo (max 0 (min (e.top + e.height - s.containerHeight) (max 0 (s.totalHeight - s.containerHeight))))
      else .none := by
  simp only [scrollToItemById]
  split_ifs <;> first | exact absurd hel (by assumption) | rfl

/-- Unfolding of `scrollToItemById` on an unmeasured target: the id is
searched among the first min(totalCount, 100) items only, and a hit is
scrolled to index x defaultItemHeight without clamping. -/
theorem scrollToItemById_unmeasured (s : SState α) (itemId : α) (b : Bool)
    (hel : s.hasElement = true) :
    scrollToItemById s itemId b none =
      match (Manager.getData s.items 0 (((min s.items.length 100 : ℕ) : ℤ) - 1)).findIdx? (fun x => x = itemId) with
      | some i => .setScrollTop ((i : ℚ) * s.defaultItemHeight)
      | none => .none := by
  unfold scrollToItemById
  rw [if_neg (fun h => h hel)]

end Scroll

end Vir

/-- C8 (corrected): scrolling to an item. For a measured target every issued
smooth scroll lands in [0, max 0 (totalHeight - containerHeight)]; a
maximized target is centered, an unmaximized target above the viewport
scrolls to its top, one extending below scrolls the minimal amount to show
its bottom, and an already-visible one scrolls nothing. For an UNMEASURED
target the id is searched only among the first min(totalCount, 100) items;
a hit assigns scrollTop = index x defaultItemHeight directly, with no
clamping, and a miss does nothing. -/
theorem vir_C8_scroll_to_item {α : Type} [DecidableEq α]
    (s : Vir.Scroll.SState α) (itemId : α) (isMaximized : Bool)
    (hel : s.hasElement = true) :
    (∀ e : Vir.Manager.ItemMeasurement,
      (∀ t, Vir.Scroll.scrollToItemById s itemId isMaximized (some e) = .smoothScrollTo t →
        0 ≤ t ∧ t ≤ max 0 (s.totalHeight - s.containerHeight)) ∧
      (isMaximized = true →
        Vir.Scroll.scrollToItemById s itemId isMaximized (some e) =
          .smoothScrollTo (max 0 (min (e.top - (s.containerHeight - e.height) / 2) (max 0 (s.totalHeight - s.containerHeight))))) ∧
      (isMaximized = false → e.top < s.scrollTop →
        Vir.Scroll.scrollToItemById s itemId isMaximized (some e) =
          .smoothScrollTo (max 0 (min e.top (max 0 (s.totalHeight - s.containerHeight))))) ∧
      (isMaximized = false → ¬ e.top < s.scrollTop →
        e.top + e.height > s.scrollTop + s.containerHeight →
        Vir.Scroll.scrollToItemById s itemId isMaximized (some e) =
          .smoothScrollTo (max 0 (min (e.top + e.height - s.containerHeight) (max 0 (s.totalHeight - s.containerHeight))))) ∧
      (isMaximized = false → ¬ e.top < s.scrollTop →
        ¬ e.top + e.height > s.scrollTop + s.containerHeight →
        Vir.Scroll.scrollToItemById s itemId isMaximized (some e) = .none)) ∧
    (∀ i : ℕ,
      (Vir.Manager.getData s.items 0 (((min s.items.length 100 : ℕ) : ℤ) - 1)).findIdx? (fun x => x = itemId) = some i →
      Vir.Scroll.scrollToItemById s itemId isMaximized none =
        .setScrollTop ((i : ℚ) * s.defaultItemHeight)) ∧
    ((Vir.Manager.getData s.items 0 (((min s.items.length 100 : ℕ) : ℤ) - 1)).findIdx? (fun x => x = itemId) = none →
      Vir.Scroll.scrollToItemById s itemId isMaximized none = .none) := by
  refine ⟨fun e => ⟨?_, ?_, ?_, ?_, ?_⟩, ?_, ?_⟩
  · intro t ht
    rw [Vir.Scroll.scrollToItemById_some s itemId isMaximized e hel] at ht
    split_ifs at ht <;>
      first
        | (injection ht with h
           subst h
           exact ⟨le_max_left _ _, max_le (le_max_left _ _) (min_le_right _ _)⟩)
        | simp at ht
  · intro hb
    subst hb
    rw [Vir.Scroll.scrollToItemById_some s itemId true e hel]
    simp
  · intro hb hlt
    subst hb
    rw [Vir.Scroll.scrollToItemById_some s itemId false e hel,
      if_neg (by simp), if_pos hlt]
  · intro hb hlt hgt
    subst hb
    rw [Vir.Scroll.scrollToItemById_some s itemId false e hel,
      if_neg (by simp), if_neg hlt, if_pos hgt]
  · intro hb hlt hgt
    subst hb
    rw [Vir.Scroll.scrollToItemById_some s itemId false e hel,
      if_neg (by simp), if_neg hlt, if_neg hgt]
  · intro i hi
    rw [Vir.Scroll.scrollToItemById_unmeasured s itemId isMaximized hel, hi]
  · intro hn
    rw [Vir.Scroll.scrollToItemById_unmeasured s itemId isMaximized hel, hn]

/-- C8 witness: in a container of height 40 at scrollTop 10 with total
height 500, scrolling to a measured unmaximized item of height 30 at top
200 issues the minimal clamped scroll 190. -/
theorem vir_C8_witness :
    (⟨true, 40, 10, 100, [0, 1, 2, 3, 4], 500⟩ : Vir.Scroll.SState ℕ).hasElement = true ∧
    Vir.Scroll.scrollToItemById
        (⟨true, 40, 10, 100, [0, 1, 2, 3, 4], 500⟩ : Vir.Scroll.SState ℕ)
        2 false (some ⟨30, 200⟩) =
      .smoothScrollTo (max 0 (min (200 + 30 - 40) (max 0 (500 - 40)))) := by
  refine ⟨rfl, ?_⟩
  exact ((vir_C8_scroll_to_item
      (⟨true, 40, 10, 100, [0, 1, 2, 3, 4], 500⟩ : Vir.Scroll.SState ℕ)
      2 false rfl).1 ⟨30, 200⟩).2.2.2.1 rfl (by norm_num) (by norm_num)

namespace Vir

variable {α : Type} [DecidableEq α]

namespace Manager

/-- A data provider whose `getData` may throw: `totalCount` models
`getTotalCount()` (total) and `getData` returns either the requested slice,
as ids paired with opaque content, or the thrown error. -/
structure ProviderE (α γ : Type) where
  totalCount : ℕ
  getData : ℤ → ℤ → Except String (List (α × γ))

/-- `VirtualizedListManager.getTotalHeight`
(src/src/core/VirtualizedListManager.ts, lines 259-280) with the provider's
count passed explicitly, for use with a fallible provider. -/
def getTotalHeightC (cfg : Config) (totalCount : ℕ)
    (m : List (α × ItemMeasurement)) : ℚ :=
  if m.length = 0 then
    (totalCount : ℚ) * cfg.defaultItemHeight
      + ((totalCount - 1 : ℕ) : ℚ) * cfg.gap
  else
    let totalHeight := (m.map (fun p => p.2.height)).sum
    let measuredItems := m.length
    let unmeasuredItems := (totalCount : ℚ) - (measuredItems : ℚ)
    let unmeasuredHeight := unmeasuredItems * cfg.defaultItemHeight
    let totalGaps := ((totalCount - 1 : ℕ) : ℚ) * cfg.gap
    totalHeight + unmeasuredHeight + totalGaps

/-- `VirtualizedListManager.updateMeasurements`
(src/src/core/VirtualizedListManager.ts, lines 219-257) over a fallible
provider: nothing to do on an empty dataset; otherwise fetch all items
(which may throw), run the placeholder purge and then the
position-rebuilding loop from top 0. -/
def updateMeasurementsE {γ : Type} (cfg : Config)
    (isPlaceholderId isErrorId : α → Bool) (P : ProviderE α γ)
    (s : State α) : Except String (State α) :=
  if P.totalCount = 0 then .ok s
  else do
    let allItems ← P.getData 0 ((P.totalCount : ℤ) - 1)
    let ids := allItems.map Prod.fst
    let s1 := { s with items := ids }
    let m0 := placeholderPurge cfg isPlaceholderId isErrorId s1
    let m1 := updateLoop cfg s1.maximizedItemId s1.maximizedHeight ids m0 0
    .ok { s1 with measurements := m1 }

/-- `VirtualizedListManager.getViewportInfo`
(src/src/core/VirtualizedListManager.ts, lines 344-412) over a fallible
provider, returning the viewport info together with the post-rebuild state
whose measurements `getVisibleItems` consults. Both `getData` fetches may
throw. -/
def getViewportInfoE {γ : Type} (cfg : Config)
    (isPlaceholderId isErrorId : α → Bool) (P : ProviderE α γ)
    (s : State α) : Except String (ViewportInfo × State α) :=
  let totalCount := P.totalCount
  if ¬ s.isInitialized ∨ totalCount = 0 then
    .ok (⟨0, s.containerHeight, 0, min ((totalCount : ℤ) - 1) 10, (totalCount : ℚ) * cfg.defaultItemHeight, totalCount⟩, s)
  else do
    let s1 ← updateMeasurementsE cfg isPlaceholderId isErrorId P s
    let totalHeight := getTotalHeightC cfg totalCount s1.measurements
    if 0 < s1.measurements.length ∧ 0 < totalCount then do
      let overscanHeight := overscan * cfg.defaultItemHeight
      let viewportTop := s1.scrollTop - overscanHeight
      let viewportBottom := s1.scrollTop + s1.containerHeight + overscanHeight
      let allItems ← P.getData 0 ((totalCount : ℤ) - 1)
      let walked := viewportWalk s1.measurements viewportTop viewportBottom
        (allItems.map Prod.fst).enum ((totalCount : ℤ), -1)
      let range :=
        if walked.1 = (totalCount : ℤ) ∨ walked.2 = -1 then
          let averageItemWithGap := cfg.defaultItemHeight + cfg.gap
          let si := max 0 (min ⌊viewportTop / averageItemWithGap⌋ ((totalCount : ℤ) - 1))
          let ei := max si (min ⌈viewportBottom / averageItemWithGap⌉ ((totalCount : ℤ) - 1))
          (si, ei)
        else walked
      .ok (⟨s1.scrollTop, s1.containerHeight, max 0 range.1, min ((totalCount : ℤ) - 1) range.2, totalHeight, totalCount⟩, s1)
    else
      .ok (⟨s1.scrollTop, s1.containerHeight, max 0 0, min ((totalCount : ℤ) - 1) ((totalCount : ℤ) - 1), totalHeight, totalCount⟩, s1)

/-- `VisibleItem` from src/src/types (second document); content is
opaque. -/
structure VisibleItem (α γ : Type) where
  id : α
  content : γ
  index : ℤ
  measurement : Option ItemMeasurement
  isMaximized : Bool
  maximizationConfig : MaximizationConfig

/-- The body of `VirtualizedListManager.getVisibleItems`
(src/src/core/VirtualizedListManager.ts, lines 414-442) before the catch
handler: empty when the viewport range is empty or out of bounds; otherwise
fetch the range (which may throw) and pair each item with its measurement
and maximization flag. -/
def getVisibleItemsE {γ : Type} (cfg : Config)
    (isPlaceholderId isErrorId : α → Bool) (P : ProviderE α γ)
    (s : State α) : Except String (List (VisibleItem α γ)) := do
  let vi ← getViewportInfoE cfg isPlaceholderId isErrorId P s
  let startIndex := vi.1.startIndex
  if startIndex > vi.1.endIndex ∨ startIndex ≥ (vi.1.totalCount : ℤ) then
    .ok []
  else do
    let safeEndIndex := min vi.1.endIndex ((vi.1.totalCount : ℤ) - 1)
    let items ← P.getData startIndex safeEndIndex
    .ok (items.enum.map (fun p =>
      { id := p.2.1, content := p.2.2, index := startIndex + (p.1 : ℤ),
        measurement := mget vi.2.measurements p.2.1,
        isMaximized := decide (vi.2.maximizedItemId = some p.2.1),
        maximizationConfig := cfg.maximization }))

/-- `VirtualizedListManager.getVisibleItems`
(src/src/core/VirtualizedListManager.ts, lines 414-442): the catch handler
turns any thrown error into the empty list. -/
def getVisibleItems {γ : Type} (cfg : Config)
    (isPlaceholderId isErrorId : α → Bool) (P : ProviderE α γ)
    (s : State α) : List (VisibleItem α γ) :=
  match getVisibleItemsE cfg isPlaceholderId isErrorId P s with
  | .ok v => v
  | .error _ => []

/-- The `ListState` snapshot shape from src/src/types (second document). -/
structure Snapshot (α γ : Type) where
  viewportInfo : ViewportInfo
  visibleItems : List (VisibleItem α γ)
  showScrollToTop : Bool
  maximizedItemId : Option α
  isInitialized : Bool
  maximizationConfig : MaximizationConfig

/-- The body of `VirtualizedListManager.getSnapshot`
(src/src/core/VirtualizedListManager.ts, lines 448-461) before the catch
handler: `getViewportInfo` may throw; `getVisibleItems` catches internally
and never throws; `showScrollToTop` comes from the scroll container's plain
getter. -/
def getSnapshotE {γ : Type} (cfg : Config)
    (isPlaceholderId isErrorId : α → Bool) (P : ProviderE α γ)
    (s : State α) (showScroll : Bool) : Except String (Snapshot α γ) := do
  let vi ← getViewportInfoE cfg isPlaceholderId isErrorId P s
  .ok ⟨vi.1, getVisibleItems cfg isPlaceholderId isErrorId P s, showScroll, s.maximizedItemId, s.isInitialized, cfg.maximization⟩

/-- `VirtualizedListManager.getSnapshot`
(src/src/core/VirtualizedListManager.ts, lines 448-476): the catch handler
returns the zeroed fallback snapshot, preserving only the maximization
configuration. -/
def getSnapshot {γ : Type} (cfg : Config)
    (isPlaceholderId isErrorId : α → Bool) (P : ProviderE α γ)
    (s : State α) (showScroll : Bool) : Snapshot α γ :=
  match getSnapshotE cfg isPlaceholderId isErrorId P s showScroll with
  | .ok v => v
  | .error _ =>
    { viewportInfo := ⟨0, 0, 0, 0, 0, 0⟩, visibleItems := [],
      showScrollToTop := false, maximizedItemId := none,
      isInitialized := false, maximizationConfig := cfg.maximization }

end Manager

end Vir

/-- C10: getVisibleItems and getSnapshot never propagate an error to the
caller. Whenever the underlying computation throws, getVisibleItems returns
the empty list and getSnapshot returns the fallback snapshot with zeroed
viewport info, empty visibleItems, showScrollToTop false, no maximized id
and isInitialized false (the maximization configuration is preserved);
a successful computation is returned unchanged. Moreover errors really
occur: on an initialized nonempty dataset whose provider throws on every
fetch, both inner computations throw that error. -/
theorem vir_C10_catch_fallback {α γ : Type} [DecidableEq α]
    (cfg : Vir.Manager.Config) (isPlaceholderId isErrorId : α → Bool)
    (P : Vir.Manager.ProviderE α γ) (s : Vir.Manager.State α)
    (showScroll : Bool) :
    (∀ err, Vir.Manager.getVisibleItemsE cfg isPlaceholderId isErrorId P s = .error err →
      Vir.Manager.getVisibleItems cfg isPlaceholderId isErrorId P s = []) ∧
    (∀ v, Vir.Manager.getVisibleItemsE cfg isPlaceholderId isErrorId P s = .ok v →
      Vir.Manager.getVisibleItems cfg isPlaceholderId isErrorId P s = v) ∧
    (∀ err, Vir.Manager.getSnapshotE cfg isPlaceholderId isErrorId P s showScroll = .error err →
      Vir.Manager.getSnapshot cfg isPlaceholderId isErrorId P s showScroll =
        ⟨⟨0, 0, 0, 0, 0, 0⟩, [], false, none, false, cfg.maximization⟩) ∧
    (∀ v, Vir.Manager.getSnapshotE cfg isPlaceholderId isErrorId P s showScroll = .ok v →
      Vir.Manager.getSnapshot cfg isPlaceholderId isErrorId P s showScroll = v) ∧
    (∀ err0, s.isInitialized = true → P.totalCount ≠ 0 →
      (∀ i j, P.getData i j = .error err0) →
      Vir.Manager.getVisibleItemsE cfg isPlaceholderId isErrorId P s = .error err0 ∧
      Vir.Manager.getSnapshotE cfg isPlaceholderId isErrorId P s showScroll = .error err0) := by
  refine ⟨?_, ?_, ?_, ?_, ?_⟩
  · intro err hx
    simp [Vir.Manager.getVisibleItems, hx]
  · intro v hx
    simp [Vir.Manager.getVisibleItems, hx]
  · intro err hx
    simp [Vir.Manager.getSnapshot, hx]
  · intro v hx
    simp [Vir.Manager.getSnapshot, hx]
  · intro err0 hinit htc hgd
    have hum : Vir.Manager.updateMeasurementsE cfg isPlaceholderId isErrorId P s = .error err0 := by
      rw [Vir.Manager.updateMeasurementsE, if_neg htc, hgd]
      rfl
    have hvp : Vir.Manager.getViewportInfoE cfg isPlaceholderId isErrorId P s = .error err0 := by
      rw [Vir.Manager.getViewportInfoE]
      rw [if_neg (by simp [hinit, htc])]
      rw [hum]
      rfl
    constructor
    · rw [Vir.Manager.getVisibleItemsE, hvp]
      rfl
    · rw [Vir.Manager.getSnapshotE, hvp]
      rfl

/-- C10 witness: with an initialized state claiming three items and a
provider whose getData always throws, the inner computations throw and the
public accessors return the empty list and the fallback snapshot. -/
theorem vir_C10_witness :
    Vir.Manager.getVisibleItems (⟨100, 0, ⟨.fixed, none, none, true, none⟩⟩ : Vir.Manager.Config) (fun _ => false) (fun _ => false) (⟨3, fun _ _ => .error "boom"⟩ : Vir.Manager.ProviderE ℕ ℕ) ⟨[], [], none, 0, 0, 0, true⟩ = [] ∧
    Vir.Manager.getSnapshot (⟨100, 0, ⟨.fixed, none, none, true, none⟩⟩ : Vir.Manager.Config) (fun _ => false) (fun _ => false) (⟨3, fun _ _ => .error "boom"⟩ : Vir.Manager.ProviderE ℕ ℕ) ⟨[], [], none, 0, 0, 0, true⟩ false =
      ⟨⟨0, 0, 0, 0, 0, 0⟩, [], false, none, false, (⟨100, 0, ⟨.fixed, none, none, true, none⟩⟩ : Vir.Manager.Config).maximization⟩ := by
  have h := vir_C10_catch_fallback (γ := ℕ)
    (⟨100, 0, ⟨.fixed, none, none, true, none⟩⟩ : Vir.Manager.Config)
    (fun _ => false) (fun _ => false)
    (⟨3, fun _ _ => .error "boom"⟩ : Vir.Manager.ProviderE ℕ ℕ)
    ⟨[], [], none, 0, 0, 0, true⟩ false
  have herr := h.2.2.2.2 "boom" rfl (by decide) (fun i j => rfl)
  exact ⟨h.1 "boom" herr.1, h.2.2.1 "boom" herr.2⟩
